import Mathlib

/-!
Verification of the AudioShelf plugin consolidation and usage-linking engine.

This file gives a shallow embedding, in Lean, of the JavaScript functions of the
repository that the specification's claims are about:

* `src/src/scanner.js` — `normalizePluginName`, `consolidatePlugins`,
  `detectDemoPlugin` (namespace `PluginScanner`);
* `src/src/ableton-scanner.js` — `extractVSTPlugins`, `cleanPluginName`,
  `parseProject` (namespace `AbletonScanner`);
* `src/unnamed/part_003` (the plugin-metadata manager) — `normalizePluginName`,
  `isFuzzyMatch` (namespace `PluginMetadata`);
* `src/src/renderer.js` — `linkProjectsToPlugins` (namespace `Renderer`).

Modelling conventions:

* JavaScript strings are modelled as Lean `String` / `List Char`.  Case mapping
  (`toLowerCase`) is modelled on the ASCII range via `Char.toLower`, which agrees
  with the JavaScript Unicode mapping on every ASCII character; all string
  constants appearing in the source are ASCII.
* JavaScript `Date` values (`modified`, `lastModified`) are modelled as `Nat`
  timestamps; the source only ever compares them with `>`.
* I/O (directory walks, file reads, gunzip) is external to the verified core, as
  the specification itself declares; the embedded functions receive the decoded
  document text / the raw installation records directly.
* A JavaScript `Map` / plain object used as a dictionary is modelled as an
  association list in insertion order, which is exactly the iteration order the
  source relies on.
* Exceptions are modelled with `Except`; the reference error raised by the
  out-of-scope identifier `alsFilePath` in `extractVSTPlugins` is the value
  `JsError.referenceError`.
-/

/-- Errors a modelled JavaScript function can raise. -/
inductive JsError : Type
  | referenceError
deriving DecidableEq, Repr

/-! ## Generic character and list-of-character helpers -/

/-- The set of characters matched by the JavaScript `\s` regex class and removed
by `String.prototype.trim` (whitespace and line terminators), by code point:
tab, line feed, vertical tab, form feed, carriage return, space, no-break
space, Ogham space mark, the `U+2000`–`U+200A` spaces, line separator,
paragraph separator, narrow no-break space, medium mathematical space,
ideographic space and the byte-order mark. -/
def jsWS (c : Char) : Bool :=
  c.toNat = 32 ∨ c.toNat = 9 ∨ c.toNat = 10 ∨ c.toNat = 11 ∨ c.toNat = 12 ∨
  c.toNat = 13 ∨ c.toNat = 0xa0 ∨ c.toNat = 0x1680 ∨
  (0x2000 ≤ c.toNat ∧ c.toNat ≤ 0x200a) ∨
  c.toNat = 0x2028 ∨ c.toNat = 0x2029 ∨ c.toNat = 0x202f ∨
  c.toNat = 0x205f ∨ c.toNat = 0x3000 ∨ c.toNat = 0xfeff

/-- ASCII decimal digit (JavaScript `\d`). -/
def jsDigit (c : Char) : Bool := 48 ≤ c.toNat ∧ c.toNat ≤ 57

/-- JavaScript `\w`: ASCII letters, digits and underscore. -/
def jsWordChar (c : Char) : Bool :=
  (97 ≤ c.toNat ∧ c.toNat ≤ 122) ∨ (65 ≤ c.toNat ∧ c.toNat ≤ 90) ∨
  (48 ≤ c.toNat ∧ c.toNat ≤ 57) ∨ c.toNat = 95

/-- Hexadecimal digit, lower or upper case (JavaScript `[a-f0-9]` with `/i`). -/
def jsHexChar (c : Char) : Bool :=
  (97 ≤ c.toNat ∧ c.toNat ≤ 102) ∨ (65 ≤ c.toNat ∧ c.toNat ≤ 70) ∨
  (48 ≤ c.toNat ∧ c.toNat ≤ 57)

/-- `pat` is a prefix of `s` (character-exact). -/
def lstartsWith : List Char → List Char → Bool
  | [], _ => true
  | _ :: _, [] => false
  | p :: ps, c :: cs => p = c && lstartsWith ps cs

/-- `needle` occurs as a contiguous substring of `hay`
(JavaScript `String.prototype.includes`). -/
def hasSubL (hay needle : List Char) : Bool :=
  match hay with
  | [] => needle.isEmpty
  | _ :: rest => lstartsWith needle hay || hasSubL rest needle

/-- Drop the characters of `s` up to and including the first `'>'`; `none` when
`s` has no `'>'`.  Also returns the characters before the `'>'`. -/
def breakAtGt : List Char → Option (List Char × List Char)
  | [] => none
  | c :: cs =>
    if c = '>' then some ([], cs)
    else
      match breakAtGt cs with
      | some (pre, post) => some (c :: pre, post)
      | none => none

/-- Split at the first `'"'`: characters before it and the suffix after it. -/
def breakAtQuote : List Char → Option (List Char × List Char)
  | [] => none
  | c :: cs =>
    if c = '"' then some ([], cs)
    else
      match breakAtQuote cs with
      | some (pre, post) => some (c :: pre, post)
      | none => none

/-- ASCII lower-casing of a whole string, one character at a time; models
JavaScript `toLowerCase` on ASCII data (see file header). -/
def jsToLowerL (s : List Char) : List Char := s.map Char.toLower

/-- `String`-level wrapper of `jsToLowerL`. -/
def jsToLowerS (s : String) : String := ⟨jsToLowerL s.data⟩

/-- JavaScript `trim`: drop `jsWS` characters from both ends. -/
def jsTrimL (s : List Char) : List Char :=
  ((s.dropWhile jsWS).reverse.dropWhile jsWS).reverse

/-- Strict lexicographic comparison of two character lists by code point; this
is the order JavaScript's default `Array.prototype.sort` uses on (BMP) strings. -/
def lexLtL : List Char → List Char → Bool
  | [], [] => false
  | [], _ :: _ => true
  | _ :: _, [] => false
  | a :: as, b :: bs =>
    if a.toNat < b.toNat then true
    else if b.toNat < a.toNat then false
    else lexLtL as bs

/-- Non-strict version of `lexLtL`. -/
def lexLeL (a b : List Char) : Bool := !(lexLtL b a)

/-- Insert into a list sorted by `le` (stable). -/
def insertSorted (le : α → α → Bool) (x : α) : List α → List α
  | [] => [x]
  | y :: ys => if le x y then x :: y :: ys else y :: insertSorted le x ys

/-- Insertion sort by `le`.  Used to model JavaScript `Array.prototype.sort`:
on the lists we sort all keys are pairwise distinct, so every correct sort
produces the same output. -/
def sortByLe (le : α → α → Bool) : List α → List α
  | [] => []
  | x :: xs => insertSorted le x (sortByLe le xs)

/-! ## `src/unnamed/part_003` — the plugin-metadata manager -/

namespace PluginMetadata

/-- `normalizePluginName` of the metadata manager:
`name.toLowerCase().trim().replace(/[^a-z0-9]/g, '').replace(/\s+/g, '')`.
After every character outside `[a-z0-9]` has been deleted no whitespace remains,
so the final `\s+` replacement deletes nothing; deleting each whitespace
character is exactly what replacing every whitespace run by the empty string
does. -/
def normalizePluginName (name : String) : String :=
  ⟨((jsTrimL (jsToLowerL name.data)).filter
      (fun c => ('a' ≤ c ∧ c ≤ 'z') ∨ ('0' ≤ c ∧ c ≤ '9'))).filter
    (fun c => !(jsWS c))⟩

/-- `isFuzzyMatch(name1, name2)` of the metadata manager: reject when the
shorter name has fewer than 3 characters, otherwise compare the first
`min 6 (min length)` characters. -/
def isFuzzyMatch (name1 name2 : String) : Bool :=
  let minLength := Nat.min name1.data.length name2.data.length
  if minLength < 3 then false
  else
    let pre := if 6 ≤ minLength then 6 else minLength
    name1.data.take pre = name2.data.take pre

end PluginMetadata

example : PluginMetadata.normalizePluginName "Pro-Q 3" = "proq3" := by decide
example : PluginMetadata.isFuzzyMatch "serumx2" "serumxy" = true := by decide
example : PluginMetadata.isFuzzyMatch "ab" "ab" = false := by decide

/-! ## `src/src/scanner.js` — the plugin scanner -/

namespace PluginScanner

/-- Match `lit` (given in lower case) case-insensitively at the head of `s`;
returns the rest of `s` after the literal. -/
def matchLitCI : List Char → List Char → Option (List Char)
  | [], s => some s
  | _ :: _, [] => none
  | l :: ls, c :: cs => if Char.toLower c = l then matchLitCI ls cs else none

/-- One attempt of the anchored vendor-prefix regex
`/^(UAD\s+|iZotope\s+|Native Instruments\s+)/i` at the start of `s`:
a case-insensitive literal followed by at least one whitespace character, the
whitespace run being consumed greedily.  Returns the rest after the match. -/
def vendorAttempt (lit : List Char) (s : List Char) : Option (List Char) :=
  match matchLitCI lit s with
  | some r =>
    match r with
    | c :: cs => if jsWS c then some (cs.dropWhile jsWS) else none
    | [] => none
  | none => none

/-- The anchored vendor-prefix match, alternatives in source order. -/
def vendorMatch (s : List Char) : Option (List Char) :=
  match vendorAttempt "uad".data s with
  | some r => some r
  | none =>
    match vendorAttempt "izotope".data s with
    | some r => some r
    | none => vendorAttempt "native instruments".data s

/-- `.replace(/^(UAD\s+|iZotope\s+|Native Instruments\s+)/i, '')`. -/
def stripVendor (s : List Char) : List Char :=
  match vendorMatch s with
  | some r => r
  | none => s

/-- One attempt of `\s*\((VST3?|AU)\)\s*` at the current position: greedy
leading whitespace, a parenthesised format tag (alternatives in source order:
`VST3`, `VST`, `AU` — the regex is case-sensitive), greedy trailing whitespace.
Returns the rest after the match. -/
def fmtMatch (s : List Char) : Option (List Char) :=
  let t := s.dropWhile jsWS
  match t with
  | c :: u =>
    if c = '(' then
      if lstartsWith "VST3)".data u then some ((u.drop 5).dropWhile jsWS)
      else if lstartsWith "VST)".data u then some ((u.drop 4).dropWhile jsWS)
      else if lstartsWith "AU)".data u then some ((u.drop 3).dropWhile jsWS)
      else none
    else none
  | [] => none

/-- Global replacement of `fmtMatch` occurrences by the empty string, scanning
left to right (fuelled recursion; a successful match always consumes at least
one character, so `fuel = length` is always sufficient). -/
def stripFmtGo : Nat → List Char → List Char
  | 0, s => s
  | _ + 1, [] => []
  | fuel + 1, c :: cs =>
    match fmtMatch (c :: cs) with
    | some rest => stripFmtGo fuel rest
    | none => c :: stripFmtGo fuel cs

/-- `.replace(/\s*\((VST3?|AU)\)\s*/g, '')`. -/
def stripFmtAll (s : List Char) : List Char := stripFmtGo s.length s

/-- One attempt of `\s*\[Bundle\]\s*|\s*\[File\]\s*` at the current position
(alternatives in source order; both start with greedy whitespace). -/
def bundleMatch (s : List Char) : Option (List Char) :=
  let t := s.dropWhile jsWS
  if lstartsWith "[Bundle]".data t then some ((t.drop 8).dropWhile jsWS)
  else if lstartsWith "[File]".data t then some ((t.drop 6).dropWhile jsWS)
  else none

/-- Global replacement of `bundleMatch` occurrences by the empty string. -/
def stripBundleGo : Nat → List Char → List Char
  | 0, s => s
  | _ + 1, [] => []
  | fuel + 1, c :: cs =>
    match bundleMatch (c :: cs) with
    | some rest => stripBundleGo fuel rest
    | none => c :: stripBundleGo fuel cs

/-- `.replace(/\s*\[Bundle\]\s*|\s*\[File\]\s*/g, '')`. -/
def stripBundleAll (s : List Char) : List Char := stripBundleGo s.length s

/-- State machine for `.replace(/\s+/g, ' ')`: `pending` records that a
whitespace run is open and still owes a single `' '`. -/
def collapseGo (pending : Bool) : List Char → List Char
  | [] => if pending then [' '] else []
  | c :: cs =>
    if jsWS c then collapseGo true cs
    else if pending then ' ' :: c :: collapseGo false cs
    else c :: collapseGo false cs

/-- `.replace(/\s+/g, ' ')`. -/
def collapseWSL (s : List Char) : List Char := collapseGo false s

/-- The character class kept by `.replace(/[^\w\s\-\.]/g, '')`: word
characters, whitespace, hyphen (code 45) and full stop (code 46). -/
def keepCF (c : Char) : Bool :=
  jsWordChar c || jsWS c || (c.toNat = 45 ∨ c.toNat = 46)

/-- `.replace(/[^\w\s\-\.]/g, '')`. -/
def charFilterL (s : List Char) : List Char := s.filter keepCF

/-- `normalizePluginName` (the consolidation-key function of
`consolidatePlugins`): strip a vendor prefix, strip format indicators, strip
`[Bundle]`/`[File]` indicators, collapse whitespace, drop characters outside
`[\w\s\-\.]`, trim, lower-case — in exactly the source's order. -/
def normalizePluginName (name : String) : String :=
  ⟨jsToLowerL (jsTrimL (charFilterL (collapseWSL
      (stripBundleAll (stripFmtAll (stripVendor name.data))))))⟩

/-- One raw plugin installation record, as produced by `analyzePlugin`. -/
structure RawPlugin where
  id : String
  name : String
  path : String
  format : String
  vendor : String
  version : Option String
  size : Nat
  modified : Nat
  installed : Bool
  category : String
  isBundle : Bool
  scanDate : String
deriving DecidableEq, Repr

/-- One entry of a consolidated plugin's `formats` list. -/
structure FormatEntry where
  format : String
  path : String
  size : Nat
  modified : Nat
  isBundle : Bool
deriving DecidableEq, Repr

/-- A consolidated plugin entity as built by `consolidatePlugins`. -/
structure ConsolidatedPlugin where
  id : String
  name : String
  vendor : String
  version : Option String
  category : String
  installed : Bool
  modified : Nat
  scanDate : String
  formats : List FormatEntry
deriving DecidableEq, Repr

/-- The consolidation key of a raw installation. -/
def normKey (p : RawPlugin) : String := normalizePluginName p.name

/-- The consolidation key of a consolidated entity. -/
def entKey (e : ConsolidatedPlugin) : String := normalizePluginName e.name

/-- The `formats` entry pushed for one raw installation. -/
def mkFormatEntry (p : RawPlugin) : FormatEntry :=
  ⟨p.format, p.path, p.size, p.modified, p.isBundle⟩

/-- The consolidated entry created for a first-seen raw installation. -/
def seedEntry (p : RawPlugin) : ConsolidatedPlugin :=
  ⟨p.id, p.name, p.vendor, p.version, p.category, p.installed, p.modified,
    p.scanDate, [mkFormatEntry p]⟩

/-- Merging a later raw installation into an existing entity: push a `formats`
entry, then advance `modified`/`scanDate` when the newcomer is strictly more
recent. -/
def mergeEntry (e : ConsolidatedPlugin) (p : RawPlugin) : ConsolidatedPlugin :=
  let e' := { e with formats := e.formats ++ [mkFormatEntry p] }
  if e'.modified < p.modified then
    { e' with modified := p.modified, scanDate := p.scanDate }
  else e'

/-- The `pluginMap` of `consolidatePlugins`, modelled as an association list in
insertion order (the iteration order of a JavaScript `Map`). -/
def PluginMap : Type := List (String × ConsolidatedPlugin)

/-- `pluginMap.has(key)`. -/
def hasKey (m : List (String × ConsolidatedPlugin)) (k : String) : Bool :=
  m.any (fun kv => kv.1 = k)

/-- `pluginMap.get(key)` / `pluginMap.set(key, merged)`: update the (unique)
entry with key `k` in place. -/
def updateAssoc (m : List (String × ConsolidatedPlugin)) (k : String)
    (p : RawPlugin) : List (String × ConsolidatedPlugin) :=
  m.map (fun kv => if kv.1 = k then (kv.1, mergeEntry kv.2 p) else kv)

/-- Processing one raw installation of the consolidation loop. -/
def insertPlugin (m : List (String × ConsolidatedPlugin)) (p : RawPlugin) :
    List (String × ConsolidatedPlugin) :=
  let key := normKey p
  if hasKey m key then updateAssoc m key p
  else m ++ [(key, seedEntry p)]

/-- The consolidation loop over all raw installations. -/
def buildMap (ps : List RawPlugin) : List (String × ConsolidatedPlugin) :=
  ps.foldl insertPlugin []

/-- Final-sort comparator.  The source sorts with
`a.name.localeCompare(b.name)`, whose collation depends on the runtime locale;
the embedding uses code-point order.  Every theorem proved below about the
output is invariant under reordering, so no proof depends on this choice. -/
def nameLe (a b : ConsolidatedPlugin) : Bool := lexLeL a.name.data b.name.data

/-- `consolidatePlugins`: fold the raw installations into the keyed map, then
return the entities sorted by display name. -/
def consolidatePlugins (ps : List RawPlugin) : List ConsolidatedPlugin :=
  sortByLe nameLe ((buildMap ps).map Prod.snd)

/-- The demo-keyword list checked against the lower-cased filename. -/
def demoKeywords : List String :=
  ["demo", "trial", "lite", "limited", "free", "eval", "evaluation",
   " le ", "_le_", " le.", "_le.",
   "beta", "preview", "sample"]

/-- The keyword list checked against the lower-cased full path. -/
def demoPathKeywords : List String :=
  ["/demo/", "/trial/", "/free/", "/beta/", "/preview/",
   "\\demo\\", "\\trial\\", "\\free\\", "\\beta\\", "\\preview\\"]

/-- The known demo/player product names checked against the lower-cased
filename. -/
def knownDemos : List String :=
  ["kontakt player", "kontakt 7 player",
   "amplitube custom shop",
   "guitar rig player",
   "reaktor player"]

/-- `detectDemoPlugin(pluginPath, filename)`: three keyword scans in source
order, the first two against the lower-cased filename resp. full path, the
last (the known demo/player products) against the lower-cased filename only. -/
def detectDemoPlugin (pluginPath filename : String) : Bool :=
  let fullPath := jsToLowerL pluginPath.data
  let name := jsToLowerL filename.data
  if demoKeywords.any (fun kw => hasSubL name kw.data) then true
  else if demoPathKeywords.any (fun kw => hasSubL fullPath kw.data) then true
  else knownDemos.any (fun kd => hasSubL name kd.data)

end PluginScanner

example : PluginScanner.normalizePluginName "Serum (VST3)" = "serum" := by decide
example : PluginScanner.normalizePluginName "UAD Pultec EQ" = "pultec eq" := by decide
example : PluginScanner.normalizePluginName "(VST)UAD Foo" = "uad foo" := by decide
example : PluginScanner.normalizePluginName "uad foo" = "foo" := by decide
example : PluginScanner.normalizePluginName "a ! b" = "a  b" := by decide
example : PluginScanner.detectDemoPlugin "/Serum/Serum.vst3" "Serum" = false := by decide
example :
    PluginScanner.detectDemoPlugin "/p/Kontakt 7 Player/Foo.vst3" "Foo" = false := by decide
example :
    PluginScanner.detectDemoPlugin "/p/Kontakt 7 Player.vst3" "Kontakt 7 Player" = true := by
  decide

/-! ## `src/src/ableton-scanner.js` — the Ableton project scanner

The extraction patterns of `extractVSTPlugins` are four regexes of two shapes:

* `<TAG[^>]*>[\s\S]*?<INNER[^>]*Value="([^"]*)"[^>]*\/>` (attribute shape)
* `<TAG[^>]*>[\s\S]*?<INNER>([^<]*)<\/INNER>` (element shape)

They are embedded by specialised matchers below that mirror the backtracking
behaviour of the JavaScript regex engine on these patterns: the overall match
is leftmost; `[^>]*` before a `>` is forced (it can only stop at the first
`>`); the lazy `[\s\S]*?` tries successive start positions left to right; the
greedy `[^>]*` before `Value="` tries the rightmost occurrence of `Value="`
inside the `>`-free run first and backtracks leftwards; `([^"]*)` stops at the
first `"`; `[^>]*\/>` forces the character before the next `>` to be `/`. -/

namespace AbletonScanner

/-- First result of `f` over a list, scanning left to right. -/
def firstSome (f : α → Option β) : List α → Option β
  | [] => none
  | x :: xs =>
    match f x with
    | some r => some r
    | none => firstSome f xs

/-- The literal `Value="` of the attribute-shaped patterns. -/
def valueLit : List Char := ['V', 'a', 'l', 'u', 'e', '=', '"']

/-- All suffixes following an occurrence of `Value="` that starts before the
first `'>'`, in left-to-right order of the occurrence. -/
def valueCandidates : List Char → List (List Char)
  | [] => []
  | c :: cs =>
    if c = '>' then []
    else
      let rest := valueCandidates cs
      if lstartsWith valueLit (c :: cs) then ((c :: cs).drop 7) :: rest else rest

/-- Continuation after `Value="`: capture `([^"]*)`, then require `[^>]*\/>`
(the character before the first subsequent `'>'` must be `'/'`).  Returns the
capture and the suffix after the whole match. -/
def tryAttrTail (t : List Char) : Option (List Char × List Char) :=
  match breakAtQuote t with
  | none => none
  | some (cap, u) =>
    match breakAtGt u with
    | none => none
    | some (pre, post) =>
      match pre.getLast? with
      | some c => if c = '/' then some (cap, post) else none
      | none => none

/-- Attribute-shaped inner pattern `<INNER[^>]*Value="([^"]*)"[^>]*\/>`
anchored at the start of `s`; candidates for the greedy `[^>]*` are tried
rightmost first. -/
def innerAttr (inner : List Char) (s : List Char) : Option (List Char × List Char) :=
  if lstartsWith ('<' :: inner) s then
    firstSome tryAttrTail (valueCandidates (s.drop (inner.length + 1))).reverse
  else none

/-- Element-shaped inner pattern `<INNER>([^<]*)<\/INNER>` anchored at the
start of `s`. -/
def innerElem (inner : List Char) (s : List Char) : Option (List Char × List Char) :=
  if lstartsWith ('<' :: (inner ++ ['>'])) s then
    let t := s.drop (inner.length + 2)
    let cap := t.takeWhile (fun c => !(c = '<'))
    let rest := t.drop cap.length
    if lstartsWith ('<' :: '/' :: (inner ++ ['>'])) rest then
      some (cap, rest.drop (inner.length + 3))
    else none
  else none

/-- The lazy `[\s\S]*?`: try the inner pattern at each successive position. -/
def scanInner (innerM : List Char → Option (List Char × List Char)) :
    List Char → Option (List Char × List Char)
  | [] => innerM []
  | c :: cs =>
    match innerM (c :: cs) with
    | some r => some r
    | none => scanInner innerM cs

/-- Leftmost match of a whole pattern `<TAG[^>]*>` + lazy gap + inner pattern:
at each position starting with `<TAG`, consume up to the first `'>'`, then scan
for the inner pattern; on failure resume the outer search one position later. -/
def matchOuter (tag : List Char) (innerM : List Char → Option (List Char × List Char)) :
    List Char → Option (List Char × List Char)
  | [] => none
  | c :: cs =>
    let attempt :=
      if lstartsWith ('<' :: tag) (c :: cs) then
        match breakAtGt ((c :: cs).drop (tag.length + 1)) with
        | some (_, afterGt) => scanInner innerM afterGt
        | none => none
      else none
    match attempt with
    | some r => some r
    | none => matchOuter tag innerM cs

/-- Repeated `exec` with the `/g` flag: successive non-overlapping leftmost
matches, each resuming after the previous match's end.  Fuelled; a match always
consumes at least one character, so `fuel = length + 1` is always sufficient. -/
def execGo (tag : List Char) (innerM : List Char → Option (List Char × List Char)) :
    Nat → List Char → List (List Char)
  | 0, _ => []
  | fuel + 1, s =>
    match matchOuter tag innerM s with
    | none => []
    | some (cap, rest) => cap :: execGo tag innerM fuel rest

/-- All captures of one extraction pattern over the document. -/
def execAll (tag : List Char) (innerM : List Char → Option (List Char × List Char))
    (s : List Char) : List (List Char) :=
  execGo tag innerM (s.length + 1) s

/-- Leftmost match of the counting regex `<TAG[^>]*>`; returns the suffix
after the match. -/
def openMatch (tag : List Char) : List Char → Option (List Char)
  | [] => none
  | c :: cs =>
    if lstartsWith ('<' :: tag) (c :: cs) then
      match breakAtGt ((c :: cs).drop (tag.length + 1)) with
      | some (_, rest) => some rest
      | none => openMatch tag cs
    else openMatch tag cs

/-- Fuelled loop for `(xmlString.match(/<TAG[^>]*>/g) || []).length`. -/
def countOpenGo (tag : List Char) : Nat → List Char → Nat
  | 0, _ => 0
  | fuel + 1, s =>
    match openMatch tag s with
    | none => 0
    | some rest => 1 + countOpenGo tag fuel rest

/-- Number of non-overlapping matches of `<TAG[^>]*>` in `s`. -/
def countOpenTags (tag : List Char) (s : List Char) : Nat :=
  countOpenGo tag (s.length + 1) s

/-- Number of non-overlapping occurrences of `needle` in the remaining text
(fuelled; `needle` is nonempty for every use below). -/
def countSubGo (needle : List Char) : Nat → List Char → Nat
  | 0, _ => 0
  | _ + 1, [] => 0
  | fuel + 1, c :: cs =>
    if !needle.isEmpty && lstartsWith needle (c :: cs) then
      1 + countSubGo needle fuel ((c :: cs).drop needle.length)
    else countSubGo needle fuel cs

/-- `hay.split(needle).length` for a nonempty separator: one more than the
number of non-overlapping occurrences. -/
def jsSplitCount (hay needle : List Char) : Nat :=
  1 + countSubGo needle (hay.length + 1) hay

/-- `s` ends with `suf` (character-exact). -/
def lEndsWith (s suf : List Char) : Bool := lstartsWith suf.reverse s.reverse

/-- `.replace(/\.(dll|vst|vst3|component)$/i, '')`: strip one known
case-insensitive binary/bundle extension from the end.  At most one of the four
suffixes can match the end of a given string, so alternation order is
immaterial. -/
def stripExtL (s : List Char) : List Char :=
  let low := jsToLowerL s
  if lEndsWith low ".dll".data then s.take (s.length - 4)
  else if lEndsWith low ".vst3".data then s.take (s.length - 5)
  else if lEndsWith low ".vst".data then s.take (s.length - 4)
  else if lEndsWith low ".component".data then s.take (s.length - 10)
  else s

/-- Junk pattern `/^(Track|Audio|Master)\s*\d*$/i`. -/
def junkTrack (s : List Char) : Bool :=
  let l := jsToLowerL s
  ["track".data, "audio".data, "master".data].any (fun w =>
    lstartsWith w l && ((l.drop w.length).dropWhile jsWS).all jsDigit)

/-- Junk pattern `/^\d+\s*-\s*/` (the trailing `\s*` always matches). -/
def junkNumDash (s : List Char) : Bool :=
  let d := s.takeWhile jsDigit
  !d.isEmpty && lstartsWith ['-'] ((s.drop d.length).dropWhile jsWS)

/-- `\d{4}-\d{2}-\d{2}` anchored at the head. -/
def dateAt : List Char → Bool
  | a :: b :: c :: d :: e :: f :: g :: h :: i :: j :: _ =>
    jsDigit a && jsDigit b && jsDigit c && jsDigit d && e = '-' &&
    jsDigit f && jsDigit g && h = '-' && jsDigit i && jsDigit j
  | _ => false

/-- Junk pattern `/\d{4}-\d{2}-\d{2}/` (anywhere in the string). -/
def junkDate : List Char → Bool
  | [] => false
  | c :: rest => dateAt (c :: rest) || junkDate rest

/-- Junk pattern `/^[a-f0-9]{8}-[a-f0-9]{4}/i`. -/
def junkGuid : List Char → Bool
  | a :: b :: c :: d :: e :: f :: g :: h :: dash :: i :: j :: k :: l :: _ =>
    [a, b, c, d, e, f, g, h].all jsHexChar && dash = '-' && [i, j, k, l].all jsHexChar
  | _ => false

/-- The fixed built-in Ableton device names rejected by `cleanPluginName`. -/
def builtInDevices : List String :=
  ["Operator", "Simpler", "Impulse", "DrumRack", "InstrumentRack",
   "Wavetable", "Bass", "Collision", "Tension", "Analog", "Compressor",
   "EQ Eight", "Reverb", "Delay", "Chorus", "Flanger", "Phaser",
   "AutoFilter", "AutoPan", "Saturator", "Redux", "Vocoder",
   "Spectrum", "Tuner", "Limiter", "Gate", "Multiband Dynamics"]

/-- `cleanPluginName(rawName)`: `null` for an empty raw string; strip a known
extension; trim; reject results shorter than 2 characters, built-in device
names and the four junk patterns; otherwise return the cleaned name. -/
def cleanPluginNameL (rawName : List Char) : Option (List Char) :=
  if rawName.isEmpty then none
  else
    let cleaned := jsTrimL (stripExtL rawName)
    if cleaned.isEmpty || cleaned.length < 2 then none
    else if builtInDevices.any (fun d => d.data = cleaned) then none
    else if junkTrack cleaned || junkNumDash cleaned || junkDate cleaned ||
        junkGuid cleaned then none
    else some cleaned

/-- `String`-level wrapper of `cleanPluginNameL`. -/
def cleanPluginName (rawName : String) : Option String :=
  (cleanPluginNameL rawName.data).map (fun l => ⟨l⟩)

/-- The hard-coded `knownPluginNames` list of the direct name search. -/
def knownPluginNames : List String :=
  ["EZdrummer 3", "Helix Native", "Serum", "Massive", "Operator",
   "Trash 2", "Chorus JUN-6", "Dimension", "iZotope", "FabFilter",
   "Waves", "Native Instruments", "Arturia", "U-he", "Xfer"]

def vst3Tag : List Char := "Vst3PluginInfo".data

def vstTag : List Char := "VstPluginInfo".data

def nameField : List Char := "Name".data

def fileNameField : List Char := "FileName".data

/-- The raw captures of the four `vstPatterns` regexes, in pattern order. -/
def patternCaptures (xml : List Char) : List (List Char) :=
  execAll vst3Tag (innerAttr nameField) xml ++
  execAll vst3Tag (innerElem nameField) xml ++
  execAll vstTag (innerAttr fileNameField) xml ++
  execAll vstTag (innerElem fileNameField) xml

/-- One regex-loop push: clean the raw capture, then push it unless falsy or
already present. -/
def pushClean (acc : List (List Char)) (raw : List Char) : List (List Char) :=
  match cleanPluginNameL raw with
  | some cleaned => if acc.contains cleaned then acc else acc ++ [cleaned]
  | none => acc

/-- One direct-search push: push the known name unless already present. -/
def pushName (acc : List (List Char)) (nm : List Char) : List (List Char) :=
  if acc.contains nm then acc else acc ++ [nm]

/-- `[...new Set(l)]`: keep the first occurrence of each element. -/
def dedupFirstGo (seen : List (List Char)) : List (List Char) → List (List Char)
  | [] => []
  | x :: xs =>
    if seen.contains x then dedupFirstGo seen xs
    else x :: dedupFirstGo (seen ++ [x]) xs

/-- `[...new Set(l)]` from an empty seen-set. -/
def dedupFirst (l : List (List Char)) : List (List Char) := dedupFirstGo [] l

/-- `extractVSTPlugins(xmlString)`.  The function first counts
`<Vst3PluginInfo[^>]*>` matches; when that count is positive the debug guard
`if (vst3InfoCount > 0 && alsFilePath.includes(...))` evaluates the identifier
`alsFilePath`, which is not in scope inside this method (it is a parameter of
`parseProject`), raising a `ReferenceError`.  Otherwise: the direct search
collects every hard-coded known plugin name occurring anywhere in the document
(`split` on a contained separator always has at least two parts); the four
regex patterns contribute their captures through `cleanPluginName`; the direct
hits are appended without cleaning; the result is de-duplicated and sorted. -/
def extractVSTPlugins (xmlString : String) : Except JsError (List String) :=
  let xml := xmlString.data
  let vst3InfoCount := countOpenTags vst3Tag xml
  if 0 < vst3InfoCount then .error .referenceError
  else
    let foundPlugins := knownPluginNames.filter
      (fun p => hasSubL xml p.data && 1 < jsSplitCount xml p.data)
    let plugins0 := (patternCaptures xml).foldl pushClean []
    let plugins1 := (foundPlugins.map String.data).foldl pushName plugins0
    let uniquePlugins := dedupFirst plugins1
    .ok ((sortByLe lexLeL uniquePlugins).map (fun l => ⟨l⟩))

/-- The extraction part of `parseProject`: the surrounding `try`/`catch`
returns `null` when `extractVSTPlugins` throws, and the project record's
`vstPlugins` field otherwise.  File I/O, gunzip and project-name extraction
are external to the modelled core. -/
def parseProjectPlugins (xmlString : String) : Option (List String) :=
  match extractVSTPlugins xmlString with
  | .ok ps => some ps
  | .error _ => none

end AbletonScanner

example :
    AbletonScanner.extractVSTPlugins "<BrowserContentPath Value=\"Serum\" />" =
      .ok ["Serum"] := by rfl
example :
    AbletonScanner.extractVSTPlugins "<Vst3PluginInfo x>" =
      .error .referenceError := by rfl
example : AbletonScanner.extractVSTPlugins "Operator" = .ok ["Operator"] := by rfl
example :
    AbletonScanner.extractVSTPlugins
      "<VstPluginInfo><FileName Value=\"Foo.dll\" /></VstPluginInfo>" = .ok ["Foo"] := by
  rfl
example : AbletonScanner.cleanPluginName "Serum.vst3" = some "Serum" := by decide
example : AbletonScanner.cleanPluginName " EZdrummer 3 " = some "EZdrummer 3" := by decide
example : AbletonScanner.cleanPluginName "Operator" = none := by decide
example : AbletonScanner.cleanPluginName "1 - Something" = none := by decide
example : AbletonScanner.cleanPluginName "Track 12" = none := by decide

/-! ## `src/src/renderer.js` — usage linking -/

namespace Renderer

/-- One parsed Ableton project, as consumed by `linkProjectsToPlugins`
(`name`, `fileName`, `lastModified`, `vstPlugins`). -/
structure AbletonProject where
  name : String
  fileName : String
  lastModified : Nat
  vstPlugins : List String
deriving DecidableEq, Repr

/-- One entry of a plugin's `projectUsage` list. -/
structure UsageEntry where
  projectName : String
  projectFile : String
  lastModified : Nat
deriving DecidableEq, Repr

/-- One inventory plugin record as read by `linkProjectsToPlugins`.  The
function reads only `id` and `name` and overwrites only `projectUsage`; every
other persisted field is copied verbatim by the object spread, so the embedding
keeps the fields the function touches plus `vendor` as a representative
carried-through field. -/
structure DbPlugin where
  id : String
  name : String
  vendor : String
  projectUsage : List UsageEntry
deriving DecidableEq, Repr

/-- Lookup in the `pluginUsage` object (a plain JS object keyed by plugin id),
modelled as an association list in insertion order. -/
def objGet (m : List (String × List UsageEntry)) (k : String) :
    Option (List UsageEntry) :=
  match m with
  | [] => none
  | kv :: rest => if kv.1 = k then some kv.2 else objGet rest k

/-- Assignment `obj[k] = v`: overwrite the existing entry, else append. -/
def objSet (m : List (String × List UsageEntry)) (k : String)
    (v : List UsageEntry) : List (String × List UsageEntry) :=
  match m with
  | [] => [(k, v)]
  | kv :: rest => if kv.1 = k then (k, v) :: rest else kv :: objSet rest k v

/-- `pluginUsage[plugin.id] = []` for every inventory plugin. -/
def initUsage (plugins : List DbPlugin) : List (String × List UsageEntry) :=
  plugins.foldl (fun m p => objSet m p.id []) []

/-- Processing one extracted plugin name of one project: find the first
inventory plugin whose name matches case-insensitively; on a hit, push a usage
entry onto the matched plugin's id (initialising the slot first when absent,
mirroring the dead `if (!pluginUsage[...])` guard). -/
def recordName (plugins : List DbPlugin) (project : AbletonProject)
    (m : List (String × List UsageEntry)) (abletonPluginName : String) :
    List (String × List UsageEntry) :=
  match plugins.find? (fun dbPlugin =>
      jsToLowerS dbPlugin.name = jsToLowerS abletonPluginName) with
  | none => m
  | some matchedPlugin =>
    let cur :=
      match objGet m matchedPlugin.id with
      | some l => l
      | none => []
    objSet m matchedPlugin.id
      (cur ++ [⟨project.name, project.fileName, project.lastModified⟩])

/-- Processing one project: fold over its extracted plugin names. -/
def recordProject (plugins : List DbPlugin)
    (m : List (String × List UsageEntry)) (project : AbletonProject) :
    List (String × List UsageEntry) :=
  project.vstPlugins.foldl (recordName plugins project) m

/-- `linkProjectsToPlugins(projects, plugins)`: build the fresh usage map, walk
every `(project, pluginName)` pair, then return the plugins with `projectUsage`
replaced by the collected lists (`pluginUsage[plugin.id] || []`). -/
def linkProjectsToPlugins (projects : List AbletonProject)
    (plugins : List DbPlugin) : List DbPlugin :=
  let usage := projects.foldl (recordProject plugins) (initUsage plugins)
  plugins.map (fun plugin =>
    { plugin with
      projectUsage :=
        match objGet usage plugin.id with
        | some l => l
        | none => [] })

end Renderer

example :
    Renderer.linkProjectsToPlugins
      [⟨"P", "p.als", 7, ["serum"]⟩]
      [⟨"idA", "Serum", "Xfer", []⟩, ⟨"idB", "Foo", "v", []⟩] =
      [⟨"idA", "Serum", "Xfer", [⟨"P", "p.als", 7⟩]⟩, ⟨"idB", "Foo", "v", []⟩] := by
  decide

/-! ## General lemmas about the embedded primitives -/

theorem charEqOfToNatEq {c d : Char} (h : c.toNat = d.toNat) : c = d :=
  Char.ext (UInt32.toNat.inj h)

/-- Two adjacent whitespace characters somewhere in the list. -/
def hasAdjWS : List Char → Bool
  | c1 :: c2 :: rest => (jsWS c1 && jsWS c2) || hasAdjWS (c2 :: rest)
  | _ => false

/-- `Char.toLower` fixes every character outside the upper-case ASCII range
and shifts an upper-case ASCII letter down by 32. -/
theorem toLower_spec (c : Char) :
    (¬(65 ≤ c.toNat ∧ c.toNat ≤ 90) ∧ Char.toLower c = c) ∨
      (65 ≤ c.toNat ∧ c.toNat ≤ 90 ∧ (Char.toLower c).toNat = c.toNat + 32) := by
  by_cases h : c.toNat ≥ 65 ∧ c.toNat ≤ 90
  · right
    refine ⟨h.1, h.2, ?_⟩
    have hv : (c.toNat + 32).isValidChar := Or.inl (by omega)
    have heq : Char.toLower c = Char.ofNat (c.toNat + 32) := by
      unfold Char.toLower
      exact if_pos h
    rw [heq, Char.ofNat, dif_pos hv]
    rfl
  · left
    refine ⟨h, ?_⟩
    unfold Char.toLower
    exact if_neg h

/-- `Char.toLower` is idempotent. -/
theorem toLower_idem (c : Char) :
    Char.toLower (Char.toLower c) = Char.toLower c := by
  rcases toLower_spec c with ⟨-, h⟩ | ⟨h1, h2, h3⟩
  · rw [h, h]
  · rcases toLower_spec (Char.toLower c) with ⟨-, h⟩ | ⟨h4, h5, -⟩
    · exact h
    · omega

/-- Lower-casing does not change whitespace membership. -/
theorem jsWS_toLower (c : Char) : jsWS (Char.toLower c) = jsWS c := by
  rcases toLower_spec c with ⟨-, h⟩ | ⟨h1, h2, h3⟩
  · rw [h]
  · have ha : jsWS (Char.toLower c) = false := by
      simp only [jsWS, decide_eq_false_iff_not]
      omega
    have hb : jsWS c = false := by
      simp only [jsWS, decide_eq_false_iff_not]
      omega
    rw [ha, hb]

/-! ## Claims C1–C4: the Ableton project extractor -/

/-- A document consisting of a single browsing-history-style reference to
`Serum`, with no `VstPluginInfo`/`Vst3PluginInfo` block. -/
def historyOnlyDoc : String := "<BrowserContentPath Value=\"Serum\" />"

/-- Claim C1 (code bug): on a document holding only a browsing-history-style
reference to `Serum` — no `Vst3PluginInfo` and no `VstPluginInfo` element, and
no capture of any of the four extraction regexes — `extractVSTPlugins`
nevertheless returns `["Serum"]`: the leftover direct known-name search pushes
every hard-coded name found anywhere in the text, so the result is not the
empty set the specification requires. -/
theorem extractVSTPlugins_history_only_doc :
    AbletonScanner.extractVSTPlugins historyOnlyDoc = .ok ["Serum"] ∧
    AbletonScanner.countOpenTags AbletonScanner.vst3Tag historyOnlyDoc.data = 0 ∧
    AbletonScanner.countOpenTags AbletonScanner.vstTag historyOnlyDoc.data = 0 ∧
    AbletonScanner.patternCaptures historyOnlyDoc.data = [] :=
  ⟨by rfl, by rfl, by rfl, by rfl⟩

/-- The document of the specification's scenario: one device-wrapped VST3
plugin-info block named `Helix Native` plus one bare browsing-history path
referencing `Serum`. -/
def helixSerumDoc : String :=
  "<PluginDevice><Vst3PluginInfo Id=\"5\"><Name Value=\"Helix Native\" /></Vst3PluginInfo></PluginDevice><BrowserContentPath Value=\"Serum\" />"

set_option maxRecDepth 4000 in
/-- Claim C2 (code bug): on the scenario document, `extractVSTPlugins` does
not return `["Helix Native"]` — because the document contains a
`Vst3PluginInfo` element, the debug guard evaluates the out-of-scope
identifier `alsFilePath` and the call raises a `ReferenceError` instead. -/
theorem extractVSTPlugins_helix_native_doc_raises :
    AbletonScanner.extractVSTPlugins helixSerumDoc = .error .referenceError ∧
    0 < AbletonScanner.countOpenTags AbletonScanner.vst3Tag helixSerumDoc.data ∧
    hasSubL helixSerumDoc.data "Helix Native".data = true ∧
    hasSubL helixSerumDoc.data "Serum".data = true :=
  ⟨by rfl, by decide, by decide, by decide⟩

/-- Claim C3: whenever the document text contains a `<Vst3PluginInfo ...>`
element, `extractVSTPlugins` raises the `ReferenceError` caused by the unbound
identifier `alsFilePath` and the caller `parseProject` returns no result;
consequently a successful extraction is only possible on documents with zero
`Vst3PluginInfo` elements. -/
theorem extractVSTPlugins_raises_iff_vst3_info (xml : String) :
    (0 < AbletonScanner.countOpenTags AbletonScanner.vst3Tag xml.data →
      AbletonScanner.extractVSTPlugins xml = .error .referenceError ∧
      AbletonScanner.parseProjectPlugins xml = none) ∧
    ∀ ps, AbletonScanner.extractVSTPlugins xml = .ok ps →
      AbletonScanner.countOpenTags AbletonScanner.vst3Tag xml.data = 0 := by
  have hbranch : 0 < AbletonScanner.countOpenTags AbletonScanner.vst3Tag xml.data →
      AbletonScanner.extractVSTPlugins xml = .error .referenceError := by
    intro h
    unfold AbletonScanner.extractVSTPlugins
    rw [if_pos h]
  constructor
  · intro h
    have he := hbranch h
    refine ⟨he, ?_⟩
    unfold AbletonScanner.parseProjectPlugins
    rw [he]
  · intro ps hok
    by_contra hne
    have h := Nat.pos_of_ne_zero hne
    rw [hbranch h] at hok
    exact Except.noConfusion hok

/-- Concrete instantiation of `extractVSTPlugins_raises_iff_vst3_info`. -/
theorem extractVSTPlugins_raises_witness :
    AbletonScanner.extractVSTPlugins "<Vst3PluginInfo a>" = .error .referenceError ∧
    AbletonScanner.parseProjectPlugins "<Vst3PluginInfo a>" = none :=
  (extractVSTPlugins_raises_iff_vst3_info "<Vst3PluginInfo a>").1 (by decide)

/-- Claim C4 (code bug): the built-in device name `Operator` — which
`cleanPluginName` rejects — appears in the extractor's result for a document
that merely contains the text `Operator`, because the direct known-name search
pushes its hits without passing them through the normalization/rejection
filter. -/
theorem extractVSTPlugins_operator_bypasses_filter :
    AbletonScanner.extractVSTPlugins "Operator" = .ok ["Operator"] ∧
    "Operator" ∈ AbletonScanner.builtInDevices ∧
    AbletonScanner.cleanPluginName "Operator" = none :=
  ⟨by rfl, by decide, by rfl⟩

/-! ## Claim C8: the fuzzy metadata match -/

/-- Claim C8 counterexample: for the pair `("ab", "abxyzq")` the shorter
normalized name has length 2, so the claimed comparison width is `N = 2` and
the two 2-character prefixes are equal — yet `isFuzzyMatch` returns `false`,
because the code rejects every pair whose shorter name is under 3 characters
before any prefix comparison. -/
theorem isFuzzyMatch_prefix_equal_short_rejected :
    PluginMetadata.isFuzzyMatch "ab" "abxyzq" = false ∧
    "ab".data.take 2 = "abxyzq".data.take 2 ∧
    Nat.min "ab".data.length "abxyzq".data.length = 2 :=
  ⟨by decide, by decide, by decide⟩

/-- Claim C8 (amended): `isFuzzyMatch` accepts exactly when the shorter
normalized name has at least 3 characters and the first
`min 6 (shorter length)` characters of the two names coincide; prefix equality
alone is not sufficient below length 3. -/
theorem isFuzzyMatch_characterization (name1 name2 : String) :
    PluginMetadata.isFuzzyMatch name1 name2 = true ↔
      (3 ≤ Nat.min name1.data.length name2.data.length ∧
        name1.data.take (Nat.min 6 (Nat.min name1.data.length name2.data.length)) =
          name2.data.take (Nat.min 6 (Nat.min name1.data.length name2.data.length))) := by
  unfold PluginMetadata.isFuzzyMatch
  by_cases hlt : Nat.min name1.data.length name2.data.length < 3
  · rw [if_pos hlt]
    constructor
    · intro hf
      exact absurd hf (by simp)
    · rintro ⟨h3, -⟩
      omega
  · rw [if_neg hlt]
    have h3 : 3 ≤ Nat.min name1.data.length name2.data.length := Nat.le_of_not_lt hlt
    by_cases h6 : 6 ≤ Nat.min name1.data.length name2.data.length
    · rw [if_pos h6]
      have hm : Nat.min 6 (Nat.min name1.data.length name2.data.length) = 6 := by
        rw [Nat.min_eq_min, Nat.min_def, if_pos h6]
      rw [hm]
      simp only [decide_eq_true_eq]
      exact ⟨fun hb => ⟨h3, hb⟩, fun hb => hb.2⟩
    · rw [if_neg h6]
      have hm : Nat.min 6 (Nat.min name1.data.length name2.data.length) =
          Nat.min name1.data.length name2.data.length := by
        rw [Nat.min_eq_min, Nat.min_def, if_neg h6]
      rw [hm]
      simp only [decide_eq_true_eq]
      exact ⟨fun hb => ⟨h3, hb⟩, fun hb => hb.2⟩

/-- Concrete instantiation of `isFuzzyMatch_characterization`. -/
theorem isFuzzyMatch_characterization_witness :
    PluginMetadata.isFuzzyMatch "serumx2" "serumxy" = true :=
  (isFuzzyMatch_characterization "serumx2" "serumxy").mpr ⟨by decide, by decide⟩

/-! ## Claim C10: the demo detector -/

/-- Claim C10 counterexample: an installation whose path contains the segment
`/Kontakt 7 Player/` but whose filename is `Foo` is not flagged — the known
demo/player product list is checked against the display name only, never
against the path. -/
theorem detectDemoPlugin_kontakt_path_not_flagged :
    PluginScanner.detectDemoPlugin "/plugins/Kontakt 7 Player/Foo.vst3" "Foo" = false ∧
    hasSubL (jsToLowerL "/plugins/Kontakt 7 Player/Foo.vst3".data)
      "/kontakt 7 player/".data = true :=
  ⟨by decide, by decide⟩

/-- Claim C10 (amended): `detectDemoPlugin` returns `true` exactly when the
lower-cased filename contains a demo keyword, or the lower-cased full path
contains a slash- or backslash-delimited demo directory keyword, or the
lower-cased filename contains a known demo/player product name; a
`/Kontakt 7 Player/` path segment alone does not trigger it (only a matching
filename does), and `/Serum/Serum.vst3` with name `Serum` is not flagged. -/
theorem detectDemoPlugin_characterization (pluginPath filename : String) :
    (PluginScanner.detectDemoPlugin pluginPath filename = true ↔
      ((∃ kw ∈ PluginScanner.demoKeywords,
          hasSubL (jsToLowerL filename.data) kw.data = true) ∨
       (∃ kw ∈ PluginScanner.demoPathKeywords,
          hasSubL (jsToLowerL pluginPath.data) kw.data = true) ∨
       (∃ kd ∈ PluginScanner.knownDemos,
          hasSubL (jsToLowerL filename.data) kd.data = true))) ∧
    PluginScanner.detectDemoPlugin "/Serum/Serum.vst3" "Serum" = false ∧
    PluginScanner.detectDemoPlugin "/x/Kontakt 7 Player.vst3" "Kontakt 7 Player" = true ∧
    PluginScanner.detectDemoPlugin "/plugins/Kontakt 7 Player/Foo.vst3" "Foo" = false := by
  refine ⟨?_, by decide, by decide, by decide⟩
  unfold PluginScanner.detectDemoPlugin
  dsimp only
  split
  case isTrue h1 =>
    simp only [true_iff]
    exact Or.inl (List.any_eq_true.mp h1)
  case isFalse h1 =>
    split
    case isTrue h2 =>
      simp only [true_iff]
      exact Or.inr (Or.inl (List.any_eq_true.mp h2))
    case isFalse h2 =>
      constructor
      · intro h3
        exact Or.inr (Or.inr (List.any_eq_true.mp h3))
      · rintro (h | h | h)
        · exact absurd (List.any_eq_true.mpr h) h1
        · exact absurd (List.any_eq_true.mpr h) h2
        · exact List.any_eq_true.mpr h

/-- Concrete instantiation of `detectDemoPlugin_characterization`. -/
theorem detectDemoPlugin_characterization_witness :
    PluginScanner.detectDemoPlugin "/p/SerumDemo.vst3" "SerumDemo" = true :=
  (detectDemoPlugin_characterization "/p/SerumDemo.vst3" "SerumDemo").1.mpr
    (Or.inl ⟨"demo", by decide, by decide⟩)

/-! ## Claim C9: usage linking -/

/-- Claim C9 counterexample: when two inventory entities share the id `"X"`,
the usage recorded for the matching entity (`"Serum"`) is also attached to the
other one (`"Foo"`), although `"Foo"` matches no extracted plugin name
case-insensitively — the usage object is keyed by `id`, not by entity. -/
theorem linkProjectsToPlugins_dup_id_leak :
    (Renderer.linkProjectsToPlugins [⟨"P", "p.als", 3, ["Serum"]⟩]
        [⟨"X", "Serum", "v", []⟩, ⟨"X", "Foo", "v", []⟩]).map
      (fun p => p.projectUsage) =
      [[⟨"P", "p.als", 3⟩], [⟨"P", "p.als", 3⟩]] ∧
    jsToLowerS "Foo" ≠ jsToLowerS "Serum" :=
  ⟨by decide, by decide⟩

/-- Fold a membership-aware invariant over `List.foldl`. -/
theorem foldlPreserves {α β : Type _} {P : β → Prop} (f : β → α → β) (l : List α)
    (hstep : ∀ s a, a ∈ l → P s → P (f s a)) :
    ∀ init, P init → P (l.foldl f init) := by
  induction l with
  | nil => exact fun init h => h
  | cons x xs ih =>
    intro init h
    exact ih (fun s a ha hp => hstep s a (List.mem_cons_of_mem _ ha) hp) _
      (hstep init x (List.mem_cons_self _ _) h)

namespace Renderer

/-- Reading an object slot after an assignment. -/
theorem objGet_objSet (m : List (String × List UsageEntry)) (k k' : String)
    (v : List UsageEntry) :
    objGet (objSet m k v) k' = if k' = k then some v else objGet m k' := by
  induction m with
  | nil =>
    by_cases h : k' = k
    · subst h
      simp [objSet, objGet]
    · have h' : ¬ k = k' := fun hh => h hh.symm
      simp [objSet, objGet, h, h']
  | cons kv rest ih =>
    by_cases h1 : kv.1 = k
    · subst h1
      by_cases h : k' = kv.1
      · subst h
        simp [objSet, objGet]
      · have h' : ¬ kv.1 = k' := fun hh => h hh.symm
        simp [objSet, objGet, h, h']
    · by_cases h2 : kv.1 = k'
      · have hk : ¬ k' = k := fun hh => h1 (h2.trans hh)
        simp [objSet, objGet, h1, h2, hk]
      · simp [objSet, objGet, h1, h2, ih]

/-- Every slot of the initial usage object is empty. -/
theorem objGet_initUsage (plugins : List DbPlugin) (k : String) :
    objGet (initUsage plugins) k = some [] ∨ objGet (initUsage plugins) k = none := by
  unfold initUsage
  refine foldlPreserves
    (P := fun m => objGet m k = some [] ∨ objGet m k = none)
    _ plugins ?_ [] (Or.inr rfl)
  intro s p _ hp
  rw [objGet_objSet]
  by_cases h : k = p.id
  · rw [if_pos h]
    exact Or.inl rfl
  · rw [if_neg h]
    exact hp

end Renderer

/-- The `projectUsage` projection of the link output, elementwise. -/
theorem link_usage_proj (projects : List Renderer.AbletonProject)
    (plugins : List Renderer.DbPlugin) :
    (Renderer.linkProjectsToPlugins projects plugins).map
      (fun p => p.projectUsage) =
    plugins.map (fun p =>
      match Renderer.objGet (projects.foldl (Renderer.recordProject plugins)
        (Renderer.initUsage plugins)) p.id with
      | some l => l
      | none => []) := by
  unfold Renderer.linkProjectsToPlugins
  simp only [List.map_map]
  rfl

/-- Claim C9 (amended): usage linking is a pure join — the `projectUsage`
lists of the output are computed afresh from the `(projects, inventory)` pair,
ignoring whatever `projectUsage` the inventory argument already carries (so
repeated linking cannot accumulate); and, provided no two inventory entities
share an `id`, every entity whose display name matches no extracted plugin
name case-insensitively ends with an empty `projectUsage` list. -/
theorem linkProjectsToPlugins_pure_join :
    (∀ (projects : List Renderer.AbletonProject) (plugins : List Renderer.DbPlugin)
        (f : Renderer.DbPlugin → List Renderer.UsageEntry),
        (Renderer.linkProjectsToPlugins projects
            (plugins.map (fun p => { p with projectUsage := f p }))).map
          (fun p => p.projectUsage) =
        (Renderer.linkProjectsToPlugins projects plugins).map
          (fun p => p.projectUsage)) ∧
    (∀ (projects : List Renderer.AbletonProject) (plugins : List Renderer.DbPlugin),
        (plugins.map (fun p => p.id)).Nodup →
        ∀ e ∈ Renderer.linkProjectsToPlugins projects plugins,
          (∀ proj ∈ projects, ∀ n ∈ proj.vstPlugins,
            jsToLowerS n ≠ jsToLowerS e.name) →
          e.projectUsage = []) := by
  constructor
  · intro projects plugins f
    have hg : ∀ (project : Renderer.AbletonProject) m n,
        Renderer.recordName (plugins.map (fun p => { p with projectUsage := f p }))
          project m n = Renderer.recordName plugins project m n := by
      intro project m n
      unfold Renderer.recordName
      rw [List.find?_map]
      have hcomp : ((fun dbPlugin : Renderer.DbPlugin =>
            decide (jsToLowerS dbPlugin.name = jsToLowerS n)) ∘
          (fun p => { p with projectUsage := f p })) =
          (fun dbPlugin : Renderer.DbPlugin =>
            decide (jsToLowerS dbPlugin.name = jsToLowerS n)) :=
        funext fun _ => rfl
      rw [hcomp]
      cases List.find? (fun dbPlugin : Renderer.DbPlugin =>
          decide (jsToLowerS dbPlugin.name = jsToLowerS n)) plugins with
      | none => rfl
      | some mp => rfl
    have hinit : Renderer.initUsage
        (plugins.map (fun p => { p with projectUsage := f p })) =
        Renderer.initUsage plugins := by
      unfold Renderer.initUsage
      rw [List.foldl_map]
    have hrecfn : Renderer.recordProject
        (plugins.map (fun p => { p with projectUsage := f p })) =
        Renderer.recordProject plugins := by
      funext m project
      unfold Renderer.recordProject
      have : Renderer.recordName
          (plugins.map (fun p => { p with projectUsage := f p })) project =
          Renderer.recordName plugins project :=
        funext fun m' => funext fun n => hg project m' n
      rw [this]
    rw [link_usage_proj, link_usage_proj, hinit, hrecfn, List.map_map]
    rfl
  · intro projects plugins hnd e he hnm
    unfold Renderer.linkProjectsToPlugins at he
    rcases List.mem_map.mp he with ⟨p, hp, hpe⟩
    have hkey : Renderer.objGet (projects.foldl (Renderer.recordProject plugins)
        (Renderer.initUsage plugins)) p.id = some [] ∨
        Renderer.objGet (projects.foldl (Renderer.recordProject plugins)
        (Renderer.initUsage plugins)) p.id = none := by
      refine foldlPreserves
        (P := fun m => Renderer.objGet m p.id = some [] ∨
          Renderer.objGet m p.id = none)
        _ projects ?_ _ (Renderer.objGet_initUsage plugins p.id)
      intro m proj hproj hm
      unfold Renderer.recordProject
      refine foldlPreserves
        (P := fun m => Renderer.objGet m p.id = some [] ∨
          Renderer.objGet m p.id = none)
        _ proj.vstPlugins ?_ m hm
      intro m' n hn hm'
      unfold Renderer.recordName
      cases hf : List.find? (fun dbPlugin : Renderer.DbPlugin =>
          decide (jsToLowerS dbPlugin.name = jsToLowerS n)) plugins with
      | none => exact hm'
      | some mp =>
        have hmpmem : mp ∈ plugins := List.mem_of_find?_eq_some hf
        have hptrue := List.find?_some hf
        have hmpname : jsToLowerS mp.name = jsToLowerS n := by
          simpa using hptrue
        have hename : e.name = p.name := by rw [← hpe]
        have hne : p.id ≠ mp.id := by
          intro hid
          have hpm : p = mp := List.inj_on_of_nodup_map hnd hp hmpmem hid
          exact hnm proj hproj n hn (by rw [hename, hpm]; exact hmpname.symm)
        rw [Renderer.objGet_objSet, if_neg hne]
        exact hm'
    have husagefield : e.projectUsage =
        match Renderer.objGet (projects.foldl (Renderer.recordProject plugins)
          (Renderer.initUsage plugins)) p.id with
        | some l => l
        | none => [] := by
      rw [← hpe]
    rcases hkey with h | h
    · rw [husagefield, h]
    · rw [husagefield, h]

/-- Concrete instantiation of `linkProjectsToPlugins_pure_join`. -/
theorem linkProjectsToPlugins_pure_join_witness :
    (Renderer.DbPlugin.mk "A" "Bar" "v" []).projectUsage = [] :=
  linkProjectsToPlugins_pure_join.2 [⟨"P", "p.als", 0, ["Serum"]⟩]
    [⟨"A", "Bar", "v", []⟩] (by decide) ⟨"A", "Bar", "v", []⟩ (by decide) (by decide)

/-! ## Claims C5 and C7: consolidation -/

/-- `insertSorted` permutes consing. -/
theorem insertSorted_perm {α : Type _} (le : α → α → Bool) (x : α) (l : List α) :
    (insertSorted le x l).Perm (x :: l) := by
  induction l with
  | nil => exact List.Perm.refl _
  | cons y ys ih =>
    unfold insertSorted
    by_cases h : le x y
    · rw [if_pos h]
    · rw [if_neg h]
      exact (ih.cons y).trans (List.Perm.swap x y ys)

/-- `sortByLe` is a permutation. -/
theorem sortByLe_perm {α : Type _} (le : α → α → Bool) (l : List α) :
    (sortByLe le l).Perm l := by
  induction l with
  | nil => exact List.Perm.refl _
  | cons x xs ih =>
    exact (insertSorted_perm le x (sortByLe le xs)).trans (ih.cons x)

namespace PluginScanner

/-- Merging does not change the display name. -/
theorem mergeEntry_name (e : ConsolidatedPlugin) (p : RawPlugin) :
    (mergeEntry e p).name = e.name := by
  unfold mergeEntry
  dsimp only
  split <;> rfl

/-- Merging appends exactly one `formats` entry. -/
theorem mergeEntry_formats (e : ConsolidatedPlugin) (p : RawPlugin) :
    (mergeEntry e p).formats = e.formats ++ [mkFormatEntry p] := by
  unfold mergeEntry
  dsimp only
  split <;> rfl

/-- Merging advances `modified` to the maximum. -/
theorem mergeEntry_modified (e : ConsolidatedPlugin) (p : RawPlugin) :
    (mergeEntry e p).modified = Nat.max e.modified p.modified := by
  unfold mergeEntry
  dsimp only
  split
  case isTrue h => exact (Nat.max_eq_right (Nat.le_of_lt h)).symm
  case isFalse h => exact (Nat.max_eq_left (Nat.le_of_not_lt h)).symm

/-- The running maximum of the `modified` stamps of a group. -/
def maxMod (l : List RawPlugin) : Nat :=
  l.foldr (fun p m => Nat.max p.modified m) 0

theorem maxMod_nil : maxMod [] = 0 := rfl

theorem maxMod_cons (p : RawPlugin) (l : List RawPlugin) :
    maxMod (p :: l) = Nat.max p.modified (maxMod l) := rfl

theorem maxMod_concat (l : List RawPlugin) (p : RawPlugin) :
    maxMod (l ++ [p]) = Nat.max (maxMod l) p.modified := by
  induction l with
  | nil =>
    rw [List.nil_append, maxMod_cons, maxMod_nil]
    rw [Nat.max_eq_max, Nat.max_eq_max, Nat.max_comm]
  | cons q l ih =>
    rw [List.cons_append, maxMod_cons, maxMod_cons, ih]
    rw [Nat.max_eq_max, Nat.max_eq_max, Nat.max_eq_max, Nat.max_eq_max, ← Nat.max_assoc]

/-- `maxMod` only depends on the multiset of stamps. -/
theorem maxMod_perm {l1 l2 : List RawPlugin} (h : l1.Perm l2) :
    maxMod l1 = maxMod l2 := by
  induction h with
  | nil => rfl
  | cons x _ ih => rw [maxMod_cons, maxMod_cons, ih]
  | swap x y l =>
    rw [maxMod_cons, maxMod_cons, maxMod_cons, maxMod_cons]
    rw [Nat.max_eq_max, Nat.max_eq_max, Nat.max_eq_max, Nat.max_eq_max,
      Nat.max_left_comm]
  | trans _ _ ih1 ih2 => exact ih1.trans ih2

/-- `pluginMap.has` finds exactly the present keys. -/
theorem hasKey_iff (m : List (String × ConsolidatedPlugin)) (k : String) :
    hasKey m k = true ↔ ∃ e, (k, e) ∈ m := by
  unfold hasKey
  rw [List.any_eq_true]
  constructor
  · rintro ⟨kv, hkv, hp⟩
    have hk : kv.1 = k := of_decide_eq_true hp
    exact ⟨kv.2, by rw [← hk]; exact hkv⟩
  · rintro ⟨e, he⟩
    exact ⟨(k, e), he, by simp⟩

/-- Filtering a one-element extension of the input by a key. -/
theorem filter_concat_key (ps : List RawPlugin) (p : RawPlugin) (k : String) :
    (ps ++ [p]).filter (fun q => normKey q == k) =
      ps.filter (fun q => normKey q == k) ++
        (if normKey p = k then [p] else []) := by
  rw [List.filter_append]
  congr 1
  by_cases h : normKey p = k
  · simp [List.filter_singleton, h]
  · simp [List.filter_singleton, h]

/-- Full characterisation of the consolidation map: each entity's key is the
normalization of its display name; its `formats` list holds exactly one entry
per raw installation of its key group, in input order; its `modified` stamp is
the group maximum; keys are pairwise distinct and form the image of the input
names under normalization. -/
theorem buildMap_spec (ps : List RawPlugin) :
    (∀ k e, (k, e) ∈ buildMap ps →
      entKey e = k ∧
      e.formats = (ps.filter (fun q => normKey q == k)).map mkFormatEntry ∧
      e.modified = maxMod (ps.filter (fun q => normKey q == k))) ∧
    ((buildMap ps).map Prod.fst).Nodup ∧
    (∀ k, (∃ e, (k, e) ∈ buildMap ps) ↔ k ∈ ps.map normKey) := by
  induction ps using List.reverseRecOn with
  | nil =>
    refine ⟨?_, ?_, ?_⟩
    · intro k e h
      simp [buildMap] at h
    · simp [buildMap]
    · intro k
      simp [buildMap]
  | append_singleton ps p ih =>
    obtain ⟨ih1, ih2, ih3⟩ := ih
    have hstep : buildMap (ps ++ [p]) = insertPlugin (buildMap ps) p := by
      unfold buildMap
      rw [List.foldl_append]
      rfl
    by_cases hk : hasKey (buildMap ps) (normKey p) = true
    · have hins : buildMap (ps ++ [p]) =
          updateAssoc (buildMap ps) (normKey p) p := by
        rw [hstep]
        unfold insertPlugin
        rw [if_pos hk]
      refine ⟨?_, ?_, ?_⟩
      · intro k e hmem
        rw [hins] at hmem
        unfold updateAssoc at hmem
        rcases List.mem_map.mp hmem with ⟨kv, hkv, hg⟩
        by_cases hkey : kv.1 = normKey p
        · rw [if_pos hkey] at hg
          have hkk : k = kv.1 := (congrArg Prod.fst hg).symm
          have hee : e = mergeEntry kv.2 p := (congrArg Prod.snd hg).symm
          subst hkk
          subst hee
          obtain ⟨ha1, ha2, ha3⟩ := ih1 kv.1 kv.2 hkv
          have hfil : (ps ++ [p]).filter (fun q => normKey q == kv.1) =
              ps.filter (fun q => normKey q == kv.1) ++ [p] := by
            rw [filter_concat_key, if_pos (by rw [hkey])]
          refine ⟨?_, ?_, ?_⟩
          · show normalizePluginName (mergeEntry kv.2 p).name = kv.1
            rw [mergeEntry_name]
            exact ha1
          · rw [mergeEntry_formats, hfil, List.map_append, ha2]
            rfl
          · rw [mergeEntry_modified, hfil, maxMod_concat, ha3]
        · rw [if_neg hkey] at hg
          have hkk : k = kv.1 := (congrArg Prod.fst hg).symm
          have hee : e = kv.2 := (congrArg Prod.snd hg).symm
          subst hkk
          subst hee
          have hkne : ¬ normKey p = kv.1 := fun hh => hkey hh.symm
          have hfil : (ps ++ [p]).filter (fun q => normKey q == kv.1) =
              ps.filter (fun q => normKey q == kv.1) := by
            rw [filter_concat_key, if_neg hkne, List.append_nil]
          rw [hfil]
          exact ih1 kv.1 kv.2 hkv
      · rw [hins]
        have hmap : (updateAssoc (buildMap ps) (normKey p) p).map Prod.fst =
            (buildMap ps).map Prod.fst := by
          unfold updateAssoc
          rw [List.map_map]
          apply List.map_congr_left
          intro kv _
          by_cases h : kv.1 = normKey p
          · simp [Function.comp, h]
          · simp [Function.comp, h]
        rw [hmap]
        exact ih2
      · intro k
        rw [hins]
        constructor
        · rintro ⟨e, he⟩
          unfold updateAssoc at he
          rcases List.mem_map.mp he with ⟨kv, hkv, hg⟩
          have hk1 : k = kv.1 := by
            by_cases h : kv.1 = normKey p
            · rw [if_pos h] at hg
              exact (congrArg Prod.fst hg).symm
            · rw [if_neg h] at hg
              exact (congrArg Prod.fst hg).symm
          rw [List.map_append]
          apply List.mem_append_left
          exact (ih3 k).mp ⟨kv.2, by rw [hk1]; exact hkv⟩
        · intro hmem
          rw [List.map_append] at hmem
          rcases List.mem_append.mp hmem with h | h
          · obtain ⟨e0, he0⟩ := (ih3 k).mpr h
            unfold updateAssoc
            by_cases h0 : k = normKey p
            · refine ⟨mergeEntry e0 p, List.mem_map.mpr ⟨(k, e0), he0, ?_⟩⟩
              rw [if_pos (show (k, e0).1 = normKey p from h0)]
            · refine ⟨e0, List.mem_map.mpr ⟨(k, e0), he0, ?_⟩⟩
              rw [if_neg (show ¬ (k, e0).1 = normKey p from h0)]
          · have hkp : k = normKey p := by simpa using h
            obtain ⟨e0, he0⟩ := (hasKey_iff _ _).mp hk
            unfold updateAssoc
            refine ⟨mergeEntry e0 p, List.mem_map.mpr ⟨(normKey p, e0), he0, ?_⟩⟩
            rw [if_pos (show (normKey p, e0).1 = normKey p from rfl), hkp]
    · have hins : buildMap (ps ++ [p]) =
          buildMap ps ++ [(normKey p, seedEntry p)] := by
        rw [hstep]
        unfold insertPlugin
        rw [if_neg hk]
      have hnotin : normKey p ∉ ps.map normKey := by
        intro hmem
        exact hk ((hasKey_iff _ _).mpr ((ih3 (normKey p)).mpr hmem))
      have hfilnil : ps.filter (fun q => normKey q == normKey p) = [] := by
        rw [List.filter_eq_nil_iff]
        intro q hq hbe
        apply hnotin
        have hqk : normKey q = normKey p := by simpa using hbe
        rw [← hqk]
        exact List.mem_map_of_mem normKey hq
      refine ⟨?_, ?_, ?_⟩
      · intro k e hmem
        rw [hins] at hmem
        rcases List.mem_append.mp hmem with h | h
        · have hkne : ¬ normKey p = k := by
            intro hh
            exact hk ((hasKey_iff _ _).mpr ⟨e, hh ▸ h⟩)
          have hfil : (ps ++ [p]).filter (fun q => normKey q == k) =
              ps.filter (fun q => normKey q == k) := by
            rw [filter_concat_key, if_neg hkne, List.append_nil]
          rw [hfil]
          exact ih1 k e h
        · have hpair : (k, e) = (normKey p, seedEntry p) := by simpa using h
          have hk1 : k = normKey p := congrArg Prod.fst hpair
          have he1 : e = seedEntry p := congrArg Prod.snd hpair
          subst hk1
          subst he1
          have hfil : (ps ++ [p]).filter (fun q => normKey q == normKey p) = [p] := by
            rw [filter_concat_key, if_pos rfl, hfilnil, List.nil_append]
          rw [hfil]
          refine ⟨rfl, rfl, ?_⟩
          show p.modified = maxMod [p]
          rw [maxMod_cons, maxMod_nil, Nat.max_eq_max, Nat.max_zero]
      · rw [hins, List.map_append, List.nodup_append]
        refine ⟨ih2, by simp, ?_⟩
        intro a ha hb
        have hb' : a = normKey p := by simpa using hb
        subst hb'
        rcases List.mem_map.mp ha with ⟨kv, hkv, hfst⟩
        exact hk ((hasKey_iff _ _).mpr ⟨kv.2, by rw [← hfst]; exact hkv⟩)
      · intro k
        rw [hins, List.map_append]
        constructor
        · rintro ⟨e, he⟩
          rcases List.mem_append.mp he with h | h
          · exact List.mem_append_left _ ((ih3 k).mp ⟨e, h⟩)
          · have hpair : (k, e) = (normKey p, seedEntry p) := by simpa using h
            have hk1 : k = normKey p := congrArg Prod.fst hpair
            apply List.mem_append_right
            simp [hk1]
        · intro hmem
          rcases List.mem_append.mp hmem with h | h
          · obtain ⟨e0, he0⟩ := (ih3 k).mpr h
            exact ⟨e0, List.mem_append_left _ he0⟩
          · have hk1 : k = normKey p := by simpa using h
            exact ⟨seedEntry p, List.mem_append_right _ (by simp [hk1])⟩

end PluginScanner

namespace PluginScanner

/-- Membership in the sorted output is membership in the keyed map. -/
theorem mem_consolidate_iff (ps : List RawPlugin) (e : ConsolidatedPlugin) :
    e ∈ consolidatePlugins ps ↔ ∃ k, (k, e) ∈ buildMap ps := by
  unfold consolidatePlugins
  rw [(sortByLe_perm nameLe _).mem_iff, List.mem_map]
  constructor
  · rintro ⟨kv, hkv, hsnd⟩
    refine ⟨kv.1, ?_⟩
    rw [← hsnd]
    exact hkv
  · rintro ⟨k, hk⟩
    exact ⟨(k, e), hk, rfl⟩

/-- The keys occurring in the output are the normalized input names. -/
theorem consolidate_keys_mem (ps : List RawPlugin) (k : String) :
    k ∈ (consolidatePlugins ps).map entKey ↔ k ∈ ps.map normKey := by
  constructor
  · intro h
    rcases List.mem_map.mp h with ⟨e, he, hke⟩
    rcases (mem_consolidate_iff ps e).mp he with ⟨k0, hk0⟩
    have hek : entKey e = k0 := ((buildMap_spec ps).1 k0 e hk0).1
    have hkk : k = k0 := by rw [← hke, hek]
    rw [hkk]
    exact ((buildMap_spec ps).2.2 k0).mp ⟨e, hk0⟩
  · intro h
    obtain ⟨e, he⟩ := ((buildMap_spec ps).2.2 k).mpr h
    have hek : entKey e = k := ((buildMap_spec ps).1 k e he).1
    exact List.mem_map.mpr ⟨e, (mem_consolidate_iff ps e).mpr ⟨k, he⟩, hek⟩

/-- No two output entities share a normalized display name. -/
theorem consolidate_keys_nodup (ps : List RawPlugin) :
    ((consolidatePlugins ps).map entKey).Nodup := by
  unfold consolidatePlugins
  have hperm : ((sortByLe nameLe ((buildMap ps).map Prod.snd)).map entKey).Perm
      (((buildMap ps).map Prod.snd).map entKey) :=
    (sortByLe_perm nameLe _).map entKey
  rw [hperm.nodup_iff, List.map_map]
  have hcongr : (buildMap ps).map (entKey ∘ Prod.snd) =
      (buildMap ps).map Prod.fst := by
    apply List.map_congr_left
    intro kv hkv
    exact ((buildMap_spec ps).1 kv.1 kv.2 hkv).1
  rw [hcongr]
  exact (buildMap_spec ps).2.1

end PluginScanner

/-- Claim C5: consolidation produces exactly one entity per distinct
normalization key of the input — each entity's `formats` list holds exactly
one entry per raw installation whose display name normalizes to the entity's
key (so same-key installations always land together), every `formats` list is
non-empty, no two entities share a normalized display name, and every input
installation is represented by an entity with its key. -/
theorem consolidatePlugins_key_invariant (ps : List PluginScanner.RawPlugin) :
    (∀ e ∈ PluginScanner.consolidatePlugins ps,
      e.formats = (ps.filter (fun q =>
        PluginScanner.normKey q == PluginScanner.entKey e)).map
        PluginScanner.mkFormatEntry ∧
      e.formats ≠ []) ∧
    ((PluginScanner.consolidatePlugins ps).map PluginScanner.entKey).Nodup ∧
    (∀ p ∈ ps, ∃ e ∈ PluginScanner.consolidatePlugins ps,
      PluginScanner.entKey e = PluginScanner.normKey p) := by
  refine ⟨?_, PluginScanner.consolidate_keys_nodup ps, ?_⟩
  · intro e he
    rcases (PluginScanner.mem_consolidate_iff ps e).mp he with ⟨k, hk⟩
    obtain ⟨h1, h2, h3⟩ := (PluginScanner.buildMap_spec ps).1 k e hk
    subst h1
    refine ⟨h2, ?_⟩
    have hkmem : PluginScanner.entKey e ∈ ps.map PluginScanner.normKey :=
      ((PluginScanner.buildMap_spec ps).2.2 _).mp ⟨e, hk⟩
    rcases List.mem_map.mp hkmem with ⟨q, hq, hqk⟩
    rw [h2]
    have hqf : q ∈ ps.filter (fun q' =>
        PluginScanner.normKey q' == PluginScanner.entKey e) :=
      List.mem_filter.mpr ⟨hq, by simp [hqk]⟩
    exact List.ne_nil_of_mem (List.mem_map_of_mem PluginScanner.mkFormatEntry hqf)
  · intro p hp
    have hkmem : PluginScanner.normKey p ∈ ps.map PluginScanner.normKey :=
      List.mem_map_of_mem _ hp
    obtain ⟨e, he⟩ := ((PluginScanner.buildMap_spec ps).2.2 _).mpr hkmem
    exact ⟨e, (PluginScanner.mem_consolidate_iff ps e).mpr ⟨_, he⟩,
      ((PluginScanner.buildMap_spec ps).1 _ e he).1⟩

/-- The two-installation scenario of the specification, used to instantiate
`consolidatePlugins_key_invariant`. -/
def c5raw : List PluginScanner.RawPlugin :=
  [⟨"id1", "Serum", "/p/Serum.vst", "VST", "Xfer", none, 10, 5, true,
    "Synthesizer", false, "d1"⟩,
   ⟨"id2", "Serum (VST3)", "/p/Serum.vst3", "VST3", "Xfer", none, 12, 7, true,
    "Synthesizer", true, "d2"⟩]

/-- The single entity consolidated from `c5raw`. -/
def c5ent : PluginScanner.ConsolidatedPlugin :=
  ⟨"id1", "Serum", "Xfer", none, "Synthesizer", true, 7, "d2",
   [⟨"VST", "/p/Serum.vst", 10, 5, false⟩, ⟨"VST3", "/p/Serum.vst3", 12, 7, true⟩]⟩

/-- Concrete instantiation of `consolidatePlugins_key_invariant`: the two
`Serum` installations of the specification's scenario merge into one entity
whose `formats` list is exactly the filter of the input by the key `serum`. -/
theorem consolidatePlugins_key_invariant_witness :
    c5ent.formats = (c5raw.filter (fun q =>
      PluginScanner.normKey q == PluginScanner.entKey c5ent)).map
      PluginScanner.mkFormatEntry ∧
    c5ent.formats ≠ [] :=
  (consolidatePlugins_key_invariant c5raw).1 c5ent (by decide)

/-- Three same-key installations that differ only in `modified`/`scanDate`. -/
def c7permA : List PluginScanner.RawPlugin :=
  [⟨"i1", "Foo", "/a", "VST", "v", none, 1, 5, true, "Other", false, "s1"⟩,
   ⟨"i1", "Foo", "/a", "VST", "v", none, 1, 9, true, "Other", false, "s2"⟩,
   ⟨"i1", "Foo", "/a", "VST", "v", none, 1, 9, true, "Other", false, "s3"⟩]

/-- A permutation of `c7permA` (the last two installations swapped). -/
def c7permB : List PluginScanner.RawPlugin :=
  [⟨"i1", "Foo", "/a", "VST", "v", none, 1, 5, true, "Other", false, "s1"⟩,
   ⟨"i1", "Foo", "/a", "VST", "v", none, 1, 9, true, "Other", false, "s3"⟩,
   ⟨"i1", "Foo", "/a", "VST", "v", none, 1, 9, true, "Other", false, "s2"⟩]

/-- Blank out the fields the claim allows to be ignored (the fields seeded
from the first-seen installation: display name, vendor, category, id). -/
def c7scrub (e : PluginScanner.ConsolidatedPlugin) : PluginScanner.ConsolidatedPlugin :=
  { e with name := "", vendor := "", category := "", id := "" }

/-- Claim C7 counterexample: the two inputs are permutations of one another
and the first-seen installation is the same in both, yet the consolidated
entities still differ after ignoring display name, vendor, category and id —
the `scanDate` provenance field follows the first encountered maximum of
`modified`, which is order-dependent (`s2` versus `s3`); even the `formats`
lists coincide here. -/
theorem consolidatePlugins_scanDate_order_dependent :
    c7permA.Perm c7permB ∧
    (PluginScanner.consolidatePlugins c7permA).map c7scrub ≠
      (PluginScanner.consolidatePlugins c7permB).map c7scrub ∧
    (PluginScanner.consolidatePlugins c7permA).map (fun e => e.scanDate) = ["s2"] ∧
    (PluginScanner.consolidatePlugins c7permB).map (fun e => e.scanDate) = ["s3"] ∧
    (PluginScanner.consolidatePlugins c7permA).map (fun e => e.formats) =
      (PluginScanner.consolidatePlugins c7permB).map (fun e => e.formats) :=
  ⟨by decide, by decide, by decide, by decide, by decide⟩

/-- Claim C7 (amended): consolidation is order-insensitive up to the
first-seen tie-break and the scan provenance — for any two permutations of the
raw input the outputs have the same set of consolidation keys, and entities
with equal keys have permutation-equal `formats` lists and the same final
`modified` timestamp; the remaining fields (display name, vendor, category,
id, version, installed and the `scanDate` stamp) and the internal order of
`formats` depend on encounter order. -/
theorem consolidatePlugins_perm_invariant (ps qs : List PluginScanner.RawPlugin)
    (h : ps.Perm qs) :
    ((PluginScanner.consolidatePlugins ps).map PluginScanner.entKey).Perm
      ((PluginScanner.consolidatePlugins qs).map PluginScanner.entKey) ∧
    ∀ e1 ∈ PluginScanner.consolidatePlugins ps,
      ∀ e2 ∈ PluginScanner.consolidatePlugins qs,
        PluginScanner.entKey e1 = PluginScanner.entKey e2 →
          e1.formats.Perm e2.formats ∧ e1.modified = e2.modified := by
  constructor
  · rw [List.perm_ext_iff_of_nodup (PluginScanner.consolidate_keys_nodup ps)
      (PluginScanner.consolidate_keys_nodup qs)]
    intro k
    rw [PluginScanner.consolidate_keys_mem, PluginScanner.consolidate_keys_mem]
    exact (h.map PluginScanner.normKey).mem_iff
  · intro e1 he1 e2 he2 hkey
    rcases (PluginScanner.mem_consolidate_iff ps e1).mp he1 with ⟨k1, hk1⟩
    rcases (PluginScanner.mem_consolidate_iff qs e2).mp he2 with ⟨k2, hk2⟩
    obtain ⟨ha1, ha2, ha3⟩ := (PluginScanner.buildMap_spec ps).1 k1 e1 hk1
    obtain ⟨hb1, hb2, hb3⟩ := (PluginScanner.buildMap_spec qs).1 k2 e2 hk2
    have hk12 : k1 = k2 := by rw [← ha1, ← hb1, hkey]
    subst hk12
    have hfperm : (ps.filter (fun q => PluginScanner.normKey q == k1)).Perm
        (qs.filter (fun q => PluginScanner.normKey q == k1)) := h.filter _
    exact ⟨by rw [ha2, hb2]; exact hfperm.map PluginScanner.mkFormatEntry,
      by rw [ha3, hb3]; exact PluginScanner.maxMod_perm hfperm⟩

/-- Concrete instantiation of `consolidatePlugins_perm_invariant` on the
swapped three-installation input. -/
theorem consolidatePlugins_perm_invariant_witness :
    (PluginScanner.ConsolidatedPlugin.mk "i1" "Foo" "v" none "Other" true 9 "s2"
        [⟨"VST", "/a", 1, 5, false⟩, ⟨"VST", "/a", 1, 9, false⟩,
         ⟨"VST", "/a", 1, 9, false⟩]).formats.Perm
      (PluginScanner.ConsolidatedPlugin.mk "i1" "Foo" "v" none "Other" true 9 "s3"
        [⟨"VST", "/a", 1, 5, false⟩, ⟨"VST", "/a", 1, 9, false⟩,
         ⟨"VST", "/a", 1, 9, false⟩]).formats ∧
    (PluginScanner.ConsolidatedPlugin.mk "i1" "Foo" "v" none "Other" true 9 "s2"
        [⟨"VST", "/a", 1, 5, false⟩, ⟨"VST", "/a", 1, 9, false⟩,
         ⟨"VST", "/a", 1, 9, false⟩]).modified =
      (PluginScanner.ConsolidatedPlugin.mk "i1" "Foo" "v" none "Other" true 9 "s3"
        [⟨"VST", "/a", 1, 5, false⟩, ⟨"VST", "/a", 1, 9, false⟩,
         ⟨"VST", "/a", 1, 9, false⟩]).modified :=
  (consolidatePlugins_perm_invariant c7permA c7permB (by decide)).2
    (PluginScanner.ConsolidatedPlugin.mk "i1" "Foo" "v" none "Other" true 9 "s2"
      [⟨"VST", "/a", 1, 5, false⟩, ⟨"VST", "/a", 1, 9, false⟩,
       ⟨"VST", "/a", 1, 9, false⟩]) (by decide)
    (PluginScanner.ConsolidatedPlugin.mk "i1" "Foo" "v" none "Other" true 9 "s3"
      [⟨"VST", "/a", 1, 5, false⟩, ⟨"VST", "/a", 1, 9, false⟩,
       ⟨"VST", "/a", 1, 9, false⟩]) (by decide) (by decide)

/-! ## Claim C6: idempotence of the consolidation-key normalizer -/

/-- Claim C6 counterexample: the normalizer is not idempotent — stripping the
format annotation `(VST)` exposes the vendor prefix `UAD` only after
lower-casing, so a second application strips further:
`normalize("(VST)UAD Foo") = "uad foo"` but `normalize("uad foo") = "foo"`. -/
theorem normalizePluginName_not_idempotent :
    PluginScanner.normalizePluginName "(VST)UAD Foo" = "uad foo" ∧
    PluginScanner.normalizePluginName
      (PluginScanner.normalizePluginName "(VST)UAD Foo") = "foo" ∧
    PluginScanner.normalizePluginName
        (PluginScanner.normalizePluginName "(VST)UAD Foo") ≠
      PluginScanner.normalizePluginName "(VST)UAD Foo" :=
  ⟨by decide, by decide, by decide⟩

/-- The head of the list is not whitespace (or the list is empty). -/
def headNotWS : List Char → Prop
  | [] => True
  | c :: _ => jsWS c = false

namespace PluginScanner

/-- Lower-casing preserves the kept character class. -/
theorem keepCF_toLower (c : Char) (h : keepCF c = true) :
    keepCF (Char.toLower c) = true := by
  rcases toLower_spec c with ⟨-, heq⟩ | ⟨h1, h2, h3⟩
  · rw [heq]
    exact h
  · have hw : jsWordChar (Char.toLower c) = true := by
      simp only [jsWordChar, decide_eq_true_eq]
      omega
    simp [keepCF, hw]

/-- Characters of the collapsed string: a collapsing space or an original
non-whitespace character. -/
theorem mem_collapseGo (c : Char) : ∀ (b : Bool) (l : List Char),
    c ∈ collapseGo b l → c = ' ' ∨ (c ∈ l ∧ jsWS c = false) := by
  intro b l
  induction l generalizing b with
  | nil =>
    intro h
    cases b
    · simp [collapseGo] at h
    · simp [collapseGo] at h
      exact Or.inl h
  | cons x xs ih =>
    intro h
    cases hx : jsWS x
    · cases b
      · rw [show collapseGo false (x :: xs) = x :: collapseGo false xs from by
          simp [collapseGo, hx]] at h
        rcases List.mem_cons.mp h with h1 | h1
        · exact Or.inr ⟨by simp [h1], by rw [h1]; exact hx⟩
        · rcases ih false h1 with h2 | ⟨h2, h3⟩
          · exact Or.inl h2
          · exact Or.inr ⟨List.mem_cons_of_mem _ h2, h3⟩
      · rw [show collapseGo true (x :: xs) = ' ' :: x :: collapseGo false xs from by
          simp [collapseGo, hx]] at h
        rcases List.mem_cons.mp h with h1 | h1
        · exact Or.inl h1
        · rcases List.mem_cons.mp h1 with h2 | h2
          · exact Or.inr ⟨by simp [h2], by rw [h2]; exact hx⟩
          · rcases ih false h2 with h3 | ⟨h3, h4⟩
            · exact Or.inl h3
            · exact Or.inr ⟨List.mem_cons_of_mem _ h3, h4⟩
    · rw [show collapseGo b (x :: xs) = collapseGo true xs from by
        simp [collapseGo, hx]] at h
      rcases ih true h with h1 | ⟨h2, h3⟩
      · exact Or.inl h1
      · exact Or.inr ⟨List.mem_cons_of_mem _ h2, h3⟩

/-- Collapsing fixes a string whose whitespace is all `' '` with no two
adjacent; the pending variant prepends exactly one space when the head is not
whitespace. -/
theorem collapseGo_self : ∀ (l : List Char),
    (∀ c ∈ l, jsWS c = true → c = ' ') → hasAdjWS l = false →
    collapseGo false l = l ∧ (headNotWS l → collapseGo true l = ' ' :: l) := by
  intro l
  induction l with
  | nil => exact fun _ _ => ⟨rfl, fun _ => rfl⟩
  | cons x xs ih =>
    intro hws hadj
    have hws' : ∀ c ∈ xs, jsWS c = true → c = ' ' :=
      fun c hc => hws c (List.mem_cons_of_mem _ hc)
    have hadj' : hasAdjWS xs = false := by
      cases xs with
      | nil => rfl
      | cons y ys =>
        have h2 := hadj
        simp only [hasAdjWS, Bool.or_eq_false_iff] at h2
        exact h2.2
    obtain ⟨ih1, ih2⟩ := ih hws' hadj'
    cases hx : jsWS x
    · refine ⟨?_, ?_⟩
      · rw [show collapseGo false (x :: xs) = x :: collapseGo false xs from by
          simp [collapseGo, hx]]
        rw [ih1]
      · intro _
        rw [show collapseGo true (x :: xs) = ' ' :: x :: collapseGo false xs from by
          simp [collapseGo, hx]]
        rw [ih1]
    · have hxsp : x = ' ' := hws x (List.mem_cons_self _ _) hx
      have hhead : headNotWS xs := by
        cases xs with
        | nil => trivial
        | cons y ys =>
          have h2 := hadj
          simp only [hasAdjWS, hx, Bool.true_and, Bool.or_eq_false_iff] at h2
          exact h2.1
      refine ⟨?_, ?_⟩
      · rw [show collapseGo false (x :: xs) = collapseGo true xs from by
          simp [collapseGo, hx]]
        rw [ih2 hhead, hxsp]
      · intro hcontra
        exact absurd hcontra (by simp [headNotWS, hx])

end PluginScanner

/-- The head surviving a `dropWhile` fails the predicate. -/
theorem dropWhile_headFalse {p : Char → Bool} :
    ∀ {l : List Char} {c : Char} {t : List Char},
      List.dropWhile p l = c :: t → p c = false := by
  intro l
  induction l with
  | nil =>
    intro c t h
    exact absurd h (by simp)
  | cons x xs ih =>
    intro c t h
    by_cases hx : p x = true
    · rw [List.dropWhile_cons, if_pos hx] at h
      exact ih h
    · rw [List.dropWhile_cons, if_neg hx] at h
      injection h with h1 _
      rw [← h1]
      exact Bool.eq_false_iff.mpr hx

/-- `dropWhile` skips over a trailing element that fails the predicate. -/
theorem dropWhile_concat_notP {p : Char → Bool} {c : Char} (hc : p c = false) :
    ∀ (l : List Char), (l ++ [c]).dropWhile p = l.dropWhile p ++ [c] := by
  intro l
  induction l with
  | nil => simp [List.dropWhile_cons, hc]
  | cons x xs ih =>
    by_cases hx : p x = true
    · rw [List.cons_append, List.dropWhile_cons, if_pos hx,
        List.dropWhile_cons, if_pos hx, ih]
    · rw [List.cons_append, List.dropWhile_cons, if_neg hx,
        List.dropWhile_cons, if_neg hx, List.cons_append]

/-- After a front-trim, trimming the back cannot re-expose front whitespace. -/
theorem dropWhile_of_trailClean {p : Char → Bool} (m : List Char)
    (h : m.dropWhile p = m) :
    ((m.reverse.dropWhile p).reverse).dropWhile p = (m.reverse.dropWhile p).reverse := by
  cases hm : m with
  | nil => rfl
  | cons c m' =>
    have h' : List.dropWhile p (c :: m') = c :: m' := by
      rw [← hm]
      exact h
    have hc : p c = false := dropWhile_headFalse h' 
    rw [List.reverse_cons, dropWhile_concat_notP hc, List.reverse_append]
    rw [show ([c].reverse ++ (m'.reverse.dropWhile p).reverse) =
      c :: (m'.reverse.dropWhile p).reverse from rfl]
    rw [List.dropWhile_cons, if_neg (by rw [hc]; exact Bool.false_ne_true)]

/-- JavaScript `trim` is idempotent. -/
theorem jsTrimL_idem (l : List Char) : jsTrimL (jsTrimL l) = jsTrimL l := by
  have h1 : (jsTrimL l).dropWhile jsWS = jsTrimL l :=
    dropWhile_of_trailClean (l.dropWhile jsWS) (List.dropWhile_idempotent _ _)
  show (((jsTrimL l).dropWhile jsWS).reverse.dropWhile jsWS).reverse = jsTrimL l
  rw [h1]
  show (((((l.dropWhile jsWS).reverse.dropWhile jsWS).reverse).reverse).dropWhile
    jsWS).reverse = jsTrimL l
  rw [List.reverse_reverse, List.dropWhile_idempotent]
  rfl

/-- `trim` commutes with ASCII lower-casing. -/
theorem jsTrimL_map_toLower (m : List Char) :
    jsTrimL (jsToLowerL m) = jsToLowerL (jsTrimL m) := by
  unfold jsTrimL jsToLowerL
  have hcomp : (jsWS ∘ Char.toLower) = jsWS := funext fun c => jsWS_toLower c
  rw [List.dropWhile_map, hcomp, ← List.map_reverse, List.dropWhile_map, hcomp,
    ← List.map_reverse]

/-- ASCII lower-casing of a list is idempotent. -/
theorem jsToLowerL_idem (m : List Char) : jsToLowerL (jsToLowerL m) = jsToLowerL m := by
  unfold jsToLowerL
  rw [List.map_map]
  exact List.map_congr_left fun c _ => toLower_idem c

/-- Trimming only removes characters. -/
theorem mem_of_mem_jsTrimL {c : Char} {m : List Char} (h : c ∈ jsTrimL m) : c ∈ m := by
  unfold jsTrimL at h
  rw [List.mem_reverse] at h
  have h2 := (List.dropWhile_sublist jsWS).subset h
  rw [List.mem_reverse] at h2
  exact (List.dropWhile_sublist jsWS).subset h2

/-- A head character of a nonempty pattern match occurs in the text. -/
theorem lstartsWith_head_mem {c : Char} {pat t : List Char}
    (h : lstartsWith (c :: pat) t = true) : c ∈ t := by
  cases t with
  | nil => exact absurd h (by simp [lstartsWith])
  | cons x xs =>
    have h2 : c = x ∧ lstartsWith pat xs = true := by simpa [lstartsWith] using h
    rw [h2.1]
    exact List.mem_cons_self _ _

namespace PluginScanner

/-- A successful format-annotation match needs an opening parenthesis. -/
theorem fmtMatch_paren {s r : List Char} (h : fmtMatch s = some r) : '(' ∈ s := by
  unfold fmtMatch at h
  cases ht : s.dropWhile jsWS with
  | nil =>
    rw [ht] at h
    exact absurd h (by simp)
  | cons c u =>
    rw [ht] at h
    by_cases hc : c = '('
    · have hmem : '(' ∈ s.dropWhile jsWS := by
        rw [ht, ← hc]
        exact List.mem_cons_self _ _
      exact (List.dropWhile_sublist jsWS).subset hmem
    · dsimp only at h
      rw [if_neg hc] at h
      exact absurd h (by simp)

/-- A successful bundle-annotation match needs an opening bracket. -/
theorem bundleMatch_bracket {s r : List Char} (h : bundleMatch s = some r) :
    '[' ∈ s := by
  unfold bundleMatch at h
  by_cases h1 : lstartsWith "[Bundle]".data (s.dropWhile jsWS) = true
  · have h1' : lstartsWith ('[' :: "Bundle]".data) (s.dropWhile jsWS) = true := h1
    exact (List.dropWhile_sublist jsWS).subset (lstartsWith_head_mem h1')
  · rw [if_neg h1] at h
    by_cases h2 : lstartsWith "[File]".data (s.dropWhile jsWS) = true
    · have h2' : lstartsWith ('[' :: "File]".data) (s.dropWhile jsWS) = true := h2
      exact (List.dropWhile_sublist jsWS).subset (lstartsWith_head_mem h2')
    · rw [if_neg h2] at h
      exact absurd h (by simp)

/-- Format stripping fixes a string without `'('`. -/
theorem stripFmtGo_id : ∀ (s : List Char), '(' ∉ s → ∀ fuel, stripFmtGo fuel s = s := by
  intro s
  induction s with
  | nil =>
    intro _ fuel
    cases fuel <;> rfl
  | cons c cs ih =>
    intro h fuel
    cases fuel with
    | zero => rfl
    | succ n =>
      cases hm : fmtMatch (c :: cs) with
      | some r => exact absurd (fmtMatch_paren hm) h
      | none =>
        rw [show stripFmtGo (n + 1) (c :: cs) = c :: stripFmtGo n cs from by
          simp [stripFmtGo, hm]]
        rw [ih (fun hmem => h (List.mem_cons_of_mem _ hmem)) n]

/-- `stripFmtAll` fixes a string without `'('`. -/
theorem stripFmtAll_id {s : List Char} (h : '(' ∉ s) : stripFmtAll s = s :=
  stripFmtGo_id s h s.length

/-- Bundle stripping fixes a string without `'['`. -/
theorem stripBundleGo_id : ∀ (s : List Char), '[' ∉ s → ∀ fuel,
    stripBundleGo fuel s = s := by
  intro s
  induction s with
  | nil =>
    intro _ fuel
    cases fuel <;> rfl
  | cons c cs ih =>
    intro h fuel
    cases fuel with
    | zero => rfl
    | succ n =>
      cases hm : bundleMatch (c :: cs) with
      | some r => exact absurd (bundleMatch_bracket hm) h
      | none =>
        rw [show stripBundleGo (n + 1) (c :: cs) = c :: stripBundleGo n cs from by
          simp [stripBundleGo, hm]]
        rw [ih (fun hmem => h (List.mem_cons_of_mem _ hmem)) n]

/-- `stripBundleAll` fixes a string without `'['`. -/
theorem stripBundleAll_id {s : List Char} (h : '[' ∉ s) : stripBundleAll s = s :=
  stripBundleGo_id s h s.length

/-- Every character of a normalized name is in the kept class, is not an
upper-case ASCII letter, and is `' '` if it is whitespace at all. -/
theorem chars_of_normalize (x : String) :
    ∀ c ∈ (normalizePluginName x).data,
      keepCF c = true ∧ ¬(65 ≤ c.toNat ∧ c.toNat ≤ 90) ∧
        (jsWS c = true → c = ' ') := by
  intro c hc
  have hc' : c ∈ jsToLowerL (jsTrimL (charFilterL (collapseWSL
      (stripBundleAll (stripFmtAll (stripVendor x.data)))))) := hc
  rcases List.mem_map.mp hc' with ⟨c0, hc0, rfl⟩
  have hc1 : c0 ∈ charFilterL (collapseWSL
      (stripBundleAll (stripFmtAll (stripVendor x.data)))) := mem_of_mem_jsTrimL hc0
  have hkeep : keepCF c0 = true := (List.mem_filter.mp hc1).2
  have hc2 : c0 ∈ collapseWSL (stripBundleAll (stripFmtAll (stripVendor x.data))) :=
    (List.mem_filter.mp hc1).1
  refine ⟨keepCF_toLower c0 hkeep, ?_, ?_⟩
  · rcases toLower_spec c0 with ⟨hnot, heq⟩ | ⟨h1, h2, h3⟩
    · rw [heq]
      exact hnot
    · omega
  · intro hws
    have hws0 : jsWS c0 = true := by
      rw [← jsWS_toLower c0]
      exact hws
    rcases mem_collapseGo c0 false _ hc2 with hsp | ⟨-, hnotws⟩
    · rw [hsp]
      decide
    · rw [hnotws] at hws0
      exact absurd hws0 (by simp)

/-- A normalized name contains no `'('`. -/
theorem no_paren_normalize (x : String) : '(' ∉ (normalizePluginName x).data := by
  intro hmem
  exact absurd (chars_of_normalize x '(' hmem).1 (by decide)

/-- A normalized name contains no `'['`. -/
theorem no_bracket_normalize (x : String) : '[' ∉ (normalizePluginName x).data := by
  intro hmem
  exact absurd (chars_of_normalize x '[' hmem).1 (by decide)

end PluginScanner

/-- Claim C6 (amended): the normalizer is idempotent on every input whose
normalized form neither starts with one of the stripped vendor prefixes
(`uad `/`izotope `/`native instruments `, case-insensitively) nor contains two
adjacent whitespace characters.  (The counterexamples force both provisos:
stripping annotations or dropping characters can expose a vendor prefix that
is only matched on a second pass, and dropping a character between two spaces
leaves a double space that is only collapsed on a second pass.) -/
theorem normalizePluginName_cond_idem (x : String)
    (h1 : PluginScanner.vendorMatch (PluginScanner.normalizePluginName x).data = none)
    (h2 : hasAdjWS (PluginScanner.normalizePluginName x).data = false) :
    PluginScanner.normalizePluginName (PluginScanner.normalizePluginName x) =
      PluginScanner.normalizePluginName x := by
  have hv : PluginScanner.stripVendor (PluginScanner.normalizePluginName x).data =
      (PluginScanner.normalizePluginName x).data := by
    unfold PluginScanner.stripVendor
    rw [h1]
  have hf : PluginScanner.stripFmtAll (PluginScanner.normalizePluginName x).data =
      (PluginScanner.normalizePluginName x).data :=
    PluginScanner.stripFmtAll_id (PluginScanner.no_paren_normalize x)
  have hb : PluginScanner.stripBundleAll (PluginScanner.normalizePluginName x).data =
      (PluginScanner.normalizePluginName x).data :=
    PluginScanner.stripBundleAll_id (PluginScanner.no_bracket_normalize x)
  have hcol : PluginScanner.collapseWSL (PluginScanner.normalizePluginName x).data =
      (PluginScanner.normalizePluginName x).data :=
    (PluginScanner.collapseGo_self _
      (fun c hc => (PluginScanner.chars_of_normalize x c hc).2.2) h2).1
  have hfil : PluginScanner.charFilterL (PluginScanner.normalizePluginName x).data =
      (PluginScanner.normalizePluginName x).data :=
    List.filter_eq_self.mpr (fun c hc => (PluginScanner.chars_of_normalize x c hc).1)
  have htrim : jsTrimL (PluginScanner.normalizePluginName x).data =
      (PluginScanner.normalizePluginName x).data := by
    show jsTrimL (jsToLowerL (jsTrimL (PluginScanner.charFilterL
      (PluginScanner.collapseWSL (PluginScanner.stripBundleAll
        (PluginScanner.stripFmtAll (PluginScanner.stripVendor x.data))))))) =
      (PluginScanner.normalizePluginName x).data
    rw [jsTrimL_map_toLower, jsTrimL_idem]
    rfl
  have hlow : jsToLowerL (PluginScanner.normalizePluginName x).data =
      (PluginScanner.normalizePluginName x).data := by
    show jsToLowerL (jsToLowerL (jsTrimL (PluginScanner.charFilterL
      (PluginScanner.collapseWSL (PluginScanner.stripBundleAll
        (PluginScanner.stripFmtAll (PluginScanner.stripVendor x.data))))))) =
      (PluginScanner.normalizePluginName x).data
    rw [jsToLowerL_idem]
    rfl
  show (⟨jsToLowerL (jsTrimL (PluginScanner.charFilterL (PluginScanner.collapseWSL
      (PluginScanner.stripBundleAll (PluginScanner.stripFmtAll
        (PluginScanner.stripVendor (PluginScanner.normalizePluginName x).data))))))⟩ :
      String) = PluginScanner.normalizePluginName x
  rw [hv, hf, hb, hcol, hfil, htrim, hlow]

/-- Concrete instantiation of `normalizePluginName_cond_idem`. -/
theorem normalizePluginName_cond_idem_witness :
    PluginScanner.normalizePluginName
        (PluginScanner.normalizePluginName "Serum (VST3)") =
      PluginScanner.normalizePluginName "Serum (VST3)" :=
  normalizePluginName_cond_idem "Serum (VST3)" (by decide) (by decide)
